import Mathlib

/-
Verification of the reqline compiler (src/services/reqline/parse.js).

The embedding works over lists of characters (JS strings).  Every stage of
the source function `parse` is translated into a Lean definition with the
same check order and the same error classification.  JS builtins used by the
source (String.prototype.trim / split / includes / indexOf / substring /
toUpperCase, JSON.parse, encodeURIComponent, Object.entries, Array join /
toString) are modelled explicitly below; modelling boundaries of builtins
are documented on each definition.
-/

namespace Reqline

/-- JS strings are modelled as lists of unicode scalar characters. -/
abbrev Str := List Char

/-- The left-brace character, written via its code point. -/
def lbChar : Char := Char.ofNat 123

/-- The right-brace character, written via its code point. -/
def rbChar : Char := Char.ofNat 125

/-- Characters treated as whitespace by JS String.prototype.trim:
space, tab, LF, CR, VT, FF, NBSP, BOM, line/paragraph separators and
the Unicode Zs space characters. -/
def jsWS (c : Char) : Bool :=
  c == ' ' || c == '\t' || c == '\n' || c == '\r' ||
  c.toNat == 11 || c.toNat == 12 || c.toNat == 160 || c.toNat == 65279 ||
  c.toNat == 8232 || c.toNat == 8233 || c.toNat == 5760 ||
  (8192 ≤ c.toNat && c.toNat ≤ 8202) || c.toNat == 8239 ||
  c.toNat == 8287 || c.toNat == 12288

/-- Model of JS String.prototype.trim (left part). -/
def trimLeft (s : Str) : Str := s.dropWhile jsWS

/-- Model of JS String.prototype.trim (right part). -/
def trimRight (s : Str) : Str := (s.reverse.dropWhile jsWS).reverse

/-- Model of JS String.prototype.trim. -/
def trim (s : Str) : Str := trimRight (trimLeft s)

/-- Model of `content.includes(abc)` for a three character needle:
some position carries the three consecutive characters a, b, c. -/
def hasTriple (a b c : Char) : Str → Bool
  | [] => false
  | x :: rest =>
    if x = a ∧ rest.head? = some b ∧ rest.tail.head? = some c then true
    else hasTriple a b c rest

/-- Model of the double-space loops of the source (lines 96, 141, 197):
some position holds two consecutive space characters. -/
def hasDoubleSpace : Str → Bool
  | [] => false
  | c :: rest =>
    if c = ' ' ∧ rest.head? = some ' ' then true else hasDoubleSpace rest

/-- The per-pipe spacing check of the source (lines 40-62), written as a scan
that remembers the previous two characters.  The loop throws the same error
INVALID_SPACING_AROUND_PIPE at the first offending pipe; since every branch
throws the same error, the scan is modelled as: does any pipe violate the
four conditions. -/
def pipeScanBad (p2 p1 : Option Char) : Str → Bool
  | [] => false
  | c :: rest =>
    if c = '|' ∧ (p1 ≠ some ' ' ∨ rest.head? ≠ some ' ' ∨ p2 = some ' ' ∨
                  rest.tail.head? = some ' ') then true
    else pipeScanBad p1 (some c) rest

/-- Model of `content.split(' | ')` (JS String.prototype.split with a
three-character literal separator, scanning left to right without
overlap).  The accumulator holds the current chunk reversed. -/
def splitPipeAux : Str → Str → List Str
  | [], acc => [acc.reverse]
  | [c], acc => [(c :: acc).reverse]
  | [c, d], acc => [(d :: c :: acc).reverse]
  | c :: d :: e :: rest, acc =>
    if c = ' ' ∧ d = '|' ∧ e = ' ' then acc.reverse :: splitPipeAux rest []
    else splitPipeAux (d :: e :: rest) (c :: acc)

/-- Model of `content.split(' | ')`. -/
def splitPipes (s : Str) : List Str := splitPipeAux s []

/-- Model of JS String.prototype.indexOf for a single character. -/
def indexOfChar (c : Char) : Str → Option Nat
  | [] => none
  | x :: rest =>
    if x = c then some 0 else (indexOfChar c rest).map (· + 1)

/-- ASCII uppercase mapping.  JS String.prototype.toUpperCase is
Unicode-aware; the model maps only a-z, which coincides with JS on all
ASCII content (the only content the keyword checks of the source compare). -/
def toUpperAscii (c : Char) : Char :=
  if 'a' ≤ c ∧ c ≤ 'z' then Char.ofNat (c.toNat - 32) else c

def isDigitChar (c : Char) : Bool := '0' ≤ c && c ≤ '9'

def digitsToNat (s : Str) : Nat :=
  s.foldl (fun acc c => acc * 10 + (c.toNat - 48)) 0

/- JSON values as produced by JSON.parse.  Arrays and objects are separate
mutual inductives so that all functions below are structurally recursive.
Modelling boundary: JSON numbers are modelled as integers; fractional or
exponent numerals are rejected by the model's JSON.parse (no claim depends
on non-integer numerals). -/
mutual
inductive JsonVal where
  | null
  | bool (b : Bool)
  | num (n : Int)
  | str (s : List Char)
  | arr (xs : JsonArr)
  | obj (props : JsonProps)
inductive JsonArr where
  | nil
  | cons (hd : JsonVal) (tl : JsonArr)
inductive JsonProps where
  | nil
  | cons (key : List Char) (val : JsonVal) (tl : JsonProps)
end

/-- Property-list view of a JSON object. -/
def propsToList : JsonProps → List (Str × JsonVal)
  | .nil => []
  | .cons k v tl => (k, v) :: propsToList tl

/-- Property assignment as JSON.parse performs it while building an object:
a duplicate key keeps its original position and receives the new value,
a fresh key is appended. -/
def propsSet : JsonProps → Str → JsonVal → JsonProps
  | .nil, k, v => .cons k v .nil
  | .cons k' v' tl, k, v =>
    if k' = k then .cons k' v tl else .cons k' v' (propsSet tl k v)

/-- JSON inter-token whitespace. -/
def jsonWsChar (c : Char) : Bool :=
  c == ' ' || c == '\t' || c == '\n' || c == '\r'

def jsonSkipWs (s : Str) : Str := s.dropWhile jsonWsChar

def hexVal (c : Char) : Option Nat :=
  if isDigitChar c then some (c.toNat - 48)
  else if 'a' ≤ c ∧ c ≤ 'f' then some (c.toNat - 87)
  else if 'A' ≤ c ∧ c ≤ 'F' then some (c.toNat - 55)
  else none

def consStr (c : Char) : Option (Str × Str) → Option (Str × Str)
  | some (cs, r) => some (c :: cs, r)
  | none => none

/-- JSON string body (after the opening quote): plain characters, the
standard escapes, and a closing quote.  Modelling boundary: \uXXXX escapes
in the surrogate range are rejected (the model's characters are unicode
scalars); unescaped control characters are rejected as in JSON. -/
def jsonParseStringBody : Str → Option (Str × Str)
  | [] => none
  | '"' :: r => some ([], r)
  | '\\' :: e :: r =>
    if e = '"' then consStr '"' (jsonParseStringBody r)
    else if e = '\\' then consStr '\\' (jsonParseStringBody r)
    else if e = '/' then consStr '/' (jsonParseStringBody r)
    else if e = 'b' then consStr (Char.ofNat 8) (jsonParseStringBody r)
    else if e = 'f' then consStr (Char.ofNat 12) (jsonParseStringBody r)
    else if e = 'n' then consStr '\n' (jsonParseStringBody r)
    else if e = 'r' then consStr '\r' (jsonParseStringBody r)
    else if e = 't' then consStr '\t' (jsonParseStringBody r)
    else if e = 'u' then
      match r with
      | h1 :: h2 :: h3 :: h4 :: r' =>
        match hexVal h1, hexVal h2, hexVal h3, hexVal h4 with
        | some a, some b, some c', some d =>
          let n := ((a * 16 + b) * 16 + c') * 16 + d
          if 55296 ≤ n ∧ n ≤ 57343 then none
          else consStr (Char.ofNat n) (jsonParseStringBody r')
        | _, _, _, _ => none
      | _ => none
    else none
  | c :: r =>
    if c.toNat < 32 then none else consStr c (jsonParseStringBody r)

/-- JSON integer numeral: optional minus, digits, no leading zero; a
following fraction or exponent marker makes the model reject (see JsonVal). -/
def jsonParseNum (s : Str) : Option (Int × Str) :=
  let (neg, s1) := match s with
                   | '-' :: r => (true, r)
                   | _ => (false, s)
  let ds := s1.takeWhile isDigitChar
  let rest := s1.dropWhile isDigitChar
  if ds = [] then none
  else if ds ≠ ['0'] ∧ ds.head? = some '0' then none
  else
    match rest with
    | '.' :: _ => none
    | 'e' :: _ => none
    | 'E' :: _ => none
    | _ => some (if neg then -(digitsToNat ds : Int) else (digitsToNat ds : Int), rest)

mutual
/-- Recursive-descent model of JSON.parse for one value; fuel makes the
recursion structural, the wrapper supplies enough fuel for any input. -/
def jsonParseVal : Nat → Str → Option (JsonVal × Str)
  | 0, _ => none
  | fuel+1, s =>
    match jsonSkipWs s with
    | 'n' :: 'u' :: 'l' :: 'l' :: r => some (.null, r)
    | 't' :: 'r' :: 'u' :: 'e' :: r => some (.bool true, r)
    | 'f' :: 'a' :: 'l' :: 's' :: 'e' :: r => some (.bool false, r)
    | '"' :: r =>
      match jsonParseStringBody r with
      | some (cs, r') => some (.str cs, r')
      | none => none
    | '[' :: r =>
      (match jsonSkipWs r with
       | ']' :: r' => some (.arr .nil, r')
       | _ =>
         match jsonParseArrItems fuel r with
         | some (xs, r') => some (.arr xs, r')
         | none => none)
    | c :: r =>
      if c = lbChar then
        (match jsonSkipWs r with
         | c' :: r' =>
           if c' = rbChar then some (.obj .nil, r')
           else
             (match jsonParseObjItems fuel r .nil with
              | some (props, r'') => some (.obj props, r'')
              | none => none)
         | [] => none)
      else if c = '-' ∨ isDigitChar c then
        (match jsonParseNum (c :: r) with
         | some (n, r') => some (.num n, r')
         | none => none)
      else none
    | [] => none

/-- Comma-separated object members up to the closing brace. -/
def jsonParseObjItems : Nat → Str → JsonProps → Option (JsonProps × Str)
  | 0, _, _ => none
  | fuel+1, s, acc =>
    match jsonSkipWs s with
    | '"' :: r =>
      (match jsonParseStringBody r with
       | none => none
       | some (k, r1) =>
         match jsonSkipWs r1 with
         | ':' :: r2 =>
           (match jsonParseVal fuel r2 with
            | none => none
            | some (v, r3) =>
              match jsonSkipWs r3 with
              | ',' :: r4 => jsonParseObjItems fuel r4 (propsSet acc k v)
              | c :: r4 => if c = rbChar then some (propsSet acc k v, r4) else none
              | [] => none)
         | _ => none)
    | _ => none

/-- Comma-separated array items up to the closing bracket. -/
def jsonParseArrItems : Nat → Str → Option (JsonArr × Str)
  | 0, _ => none
  | fuel+1, s =>
    match jsonParseVal fuel s with
    | none => none
    | some (v, r) =>
      match jsonSkipWs r with
      | ',' :: r2 =>
        (match jsonParseArrItems fuel r2 with
         | some (xs, r3) => some (.cons v xs, r3)
         | none => none)
      | ']' :: r2 => some (.cons v .nil, r2)
      | _ => none
end

/-- Model of JSON.parse: a single value with only whitespace around it. -/
def jsonParse (s : Str) : Option JsonVal :=
  match jsonParseVal (4 * s.length + 8) s with
  | some (v, rest) => if jsonSkipWs rest = [] then some v else none
  | none => none

/-- The check `typeof x !== 'object' || Array.isArray(x)` of the source
(lines 250 and 256).  JS typeof null is the string object, so null passes
this check exactly as arrays fail it. -/
def jsNotObjectType : JsonVal → Bool
  | .bool _ => true
  | .num _ => true
  | .str _ => true
  | .arr _ => true
  | .null => false
  | .obj _ => false

mutual
/- JS ToString on JSON values, as encodeURIComponent applies it to a
query value: strings stay, integers print in decimal, booleans and null
print their keyword, arrays join their elements with commas (null elements
become empty), plain objects print as [object Object]. -/
def jsToString : JsonVal → Str
  | .null => ("null".data)
  | .bool true => ("true".data)
  | .bool false => ("false".data)
  | .num n => (toString n).data
  | .str s => s
  | .arr xs => jsArrJoin xs
  | .obj _ => ("[object Object]".data)
/-- JS Array.prototype.join with a comma, as used by array ToString. -/
def jsArrJoin : JsonArr → Str
  | .nil => []
  | .cons x tl =>
    (match x with
     | .null => []
     | v => jsToString v) ++
    (match tl with
     | .nil => []
     | _ => ',' :: jsArrJoin tl)
end

/-- The unreserved characters of encodeURIComponent: letters, digits and
- _ . ! ~ * ( ) and the apostrophe. -/
def isUnreservedURI (c : Char) : Bool :=
  ('A' ≤ c && c ≤ 'Z') || ('a' ≤ c && c ≤ 'z') || ('0' ≤ c && c ≤ '9') ||
  c == '-' || c == '_' || c == '.' || c == '!' || c == '~' || c == '*' ||
  c == '(' || c == ')' || c.toNat == 39

def hexDigitUpper (n : Nat) : Char :=
  if n < 10 then Char.ofNat (48 + n) else Char.ofNat (55 + n)

/-- UTF-8 bytes of a unicode scalar. -/
def utf8Bytes (c : Char) : List Nat :=
  let n := c.toNat
  if n < 128 then [n]
  else if n < 2048 then [192 + n / 64, 128 + n % 64]
  else if n < 65536 then [224 + n / 4096, 128 + (n / 64) % 64, 128 + n % 64]
  else [240 + n / 262144, 128 + (n / 4096) % 64, 128 + (n / 64) % 64, 128 + n % 64]

def percentByte (b : Nat) : Str := ['%', hexDigitUpper (b / 16), hexDigitUpper (b % 16)]

def encodeChar (c : Char) : Str :=
  if isUnreservedURI c then [c] else ((utf8Bytes c).map percentByte).flatten

/-- Model of JS encodeURIComponent. -/
def encodeURIComponent (s : Str) : Str := (s.map encodeChar).flatten

/-- Canonical array-index keys of a JS object: the canonical decimal form
of an integer below 2^32 - 1. -/
def isArrayIndexKey (k : Str) : Bool :=
  if k = [] then false
  else if ¬ k.all isDigitChar = true then false
  else if k ≠ ['0'] ∧ k.head? = some '0' then false
  else decide (digitsToNat k < 4294967295)

def insertByKey (x : Str × JsonVal) : List (Str × JsonVal) → List (Str × JsonVal)
  | [] => [x]
  | y :: ys =>
    if digitsToNat x.1 ≤ digitsToNat y.1 then x :: y :: ys
    else y :: insertByKey x ys

def sortByKey : List (Str × JsonVal) → List (Str × JsonVal)
  | [] => []
  | x :: xs => insertByKey x (sortByKey xs)

/-- Model of Object.entries enumeration order on an object built by
JSON.parse: array-index keys first in ascending numeric order, then the
remaining keys in insertion order. -/
def entriesJS (l : List (Str × JsonVal)) : List (Str × JsonVal) :=
  sortByKey (l.filter (fun p => isArrayIndexKey p.1)) ++
  l.filter (fun p => !(isArrayIndexKey p.1))

/-- One key=value pair of the query string (source line 261): the key
verbatim, the value through encodeURIComponent. -/
def pairString (p : Str × JsonVal) : Str :=
  p.1 ++ '=' :: encodeURIComponent (jsToString p.2)

/-- JS Array.prototype.join with ampersand. -/
def joinAmp : List Str → Str
  | [] => []
  | [x] => x
  | x :: xs => x ++ '&' :: joinAmp xs

/-- The query string built from a query object (source lines 259-262). -/
def queryStringOf (l : List (Str × JsonVal)) : Str :=
  joinAmp ((entriesJS l).map pairString)

/-- Modelled from the spec: the message catalog ../../messages/req-line is
not under src/, so its entries are modelled as distinct error kinds (the
spec's section 7 lists one fixed message per classification).  The names
follow the constant names used at the call sites of the source; the
constructor invalidJsonFormatIn models the template literal of source
line 279, transportMsg models the upstream message of line 296. -/
inductive ErrMsg where
  | MISSING_REQLINE
  | INVALID_SYNTAX
  | INVALID_REQLINE_FORMAT
  | INVALID_SPACING_AROUND_PIPE
  | HTTP_NOT_FIRST
  | URL_NOT_SECOND
  | EMPTY_HTTP_SECTION
  | EMPTY_URL_SECTION
  | MULTIPLE_SPACES_FOUND
  | MISSING_SPACE_AFTER_KEYWORD
  | MISSING_HTTP_KEYWORD
  | MISSING_URL_KEYWORD
  | HTTP_METHOD_NOT_UPPERCASE
  | INVALID_HTTP_METHOD
  | INVALID_URL_FORMAT
  | KEYWORDS_NOT_UPPERCASE
  | INVALID_KEYWORD
  | DUPLICATE_SECTION
  | EMPTY_HEADERS_SECTION
  | EMPTY_QUERY_SECTION
  | EMPTY_BODY_SECTION
  | INVALID_JSON_FORMAT_HEADERS
  | INVALID_JSON_FORMAT_QUERY
  | invalidJsonFormatIn (keyword : Str)
  | transportMsg (msg : Str)
deriving DecidableEq

/-- A classified application error as produced by throwAppError. -/
structure AppError where
  msg : ErrMsg
  status : Nat
deriving DecidableEq

/-- throwAppError with the 400 status used by every parse-phase call site. -/
def err400 {α : Type} (m : ErrMsg) : Except AppError α := .error ⟨m, 400⟩

/-- The request object of the source (line 71): query/body/headers start as
empty objects, fullUrl is set once the url is validated. -/
structure Request where
  query : JsonVal
  body : JsonVal
  headers : JsonVal
  fullUrl : Str

/-- Source lines 8-69: input present, bracket wrapping, interior trim and
non-emptiness, the three pipe-spacing checks, the split on the pipe
delimiter and the at-least-two-sections check.  The typeof check of line 12
cannot fire in the model, whose input is always a string. -/
def validateAndSplit (s : Str) : Except AppError (Str × Str × List Str) :=
  if s = [] then err400 .MISSING_REQLINE
  else if ¬ (s.head? = some '[' ∧ s.getLast? = some ']') then
    err400 .INVALID_REQLINE_FORMAT
  else if trim ((s.drop 1).dropLast) = [] then err400 .INVALID_SYNTAX
  else if hasTriple ' ' ' ' '|' (trim ((s.drop 1).dropLast)) then
    err400 .INVALID_SPACING_AROUND_PIPE
  else if hasTriple '|' ' ' ' ' (trim ((s.drop 1).dropLast)) then
    err400 .INVALID_SPACING_AROUND_PIPE
  else if pipeScanBad none none (trim ((s.drop 1).dropLast)) then
    err400 .INVALID_SPACING_AROUND_PIPE
  else
    match splitPipes (trim ((s.drop 1).dropLast)) with
    | p1 :: p2 :: rest => .ok (p1, p2, rest)
    | _ => err400 .INVALID_SYNTAX

/-- Source lines 91-133: the HTTP section down to the validated method. -/
def parseHttpPart (p : Str) : Except AppError Str :=
  if p = [] ∨ trim p = [] then err400 .EMPTY_HTTP_SECTION
  else if hasDoubleSpace p then err400 .MULTIPLE_SPACES_FOUND
  else
    match indexOfChar ' ' (trim p) with
    | none => err400 .MISSING_SPACE_AFTER_KEYWORD
    | some i =>
      if (trim p).take i ≠ ("HTTP".data) then err400 .MISSING_HTTP_KEYWORD
      else if (trim p).drop (i + 1) = [] then err400 .MISSING_SPACE_AFTER_KEYWORD
      else if ((trim p).drop (i + 1)).contains ' ' then err400 .MULTIPLE_SPACES_FOUND
      else if (trim p).drop (i + 1) ≠ ((trim p).drop (i + 1)).map toUpperAscii then
        err400 .HTTP_METHOD_NOT_UPPERCASE
      else if (trim p).drop (i + 1) ≠ ("GET".data) ∧ (trim p).drop (i + 1) ≠ ("POST".data) then
        err400 .INVALID_HTTP_METHOD
      else .ok ((trim p).drop (i + 1))

/-- Source lines 136-175: the URL section down to the validated url. -/
def parseUrlPart (p : Str) : Except AppError Str :=
  if p = [] ∨ trim p = [] then err400 .EMPTY_URL_SECTION
  else if hasDoubleSpace p then err400 .MULTIPLE_SPACES_FOUND
  else
    match indexOfChar ' ' (trim p) with
    | none => err400 .MISSING_SPACE_AFTER_KEYWORD
    | some i =>
      if (trim p).take i ≠ ("URL".data) then err400 .MISSING_URL_KEYWORD
      else if (trim p).drop (i + 1) = [] then err400 .MISSING_SPACE_AFTER_KEYWORD
      else if ((trim p).drop (i + 1)).contains ' ' then err400 .MULTIPLE_SPACES_FOUND
      else if ¬ ((List.isPrefixOf ("http://".data) ((trim p).drop (i + 1)) ∨
                  List.isPrefixOf ("https://".data) ((trim p).drop (i + 1)))
                 ∧ 8 < ((trim p).drop (i + 1)).length) then err400 .INVALID_URL_FORMAT
      else .ok ((trim p).drop (i + 1))

/-- Source lines 192-221: the keyword-level checks of one trailing section,
yielding its keyword and raw value. -/
def decodeKw (p : Str) : Except AppError (Str × Str) :=
  if p = [] ∨ trim p = [] then err400 .INVALID_SYNTAX
  else if hasDoubleSpace p then err400 .MULTIPLE_SPACES_FOUND
  else
    match indexOfChar ' ' (trim p) with
    | none => err400 .MISSING_SPACE_AFTER_KEYWORD
    | some i =>
      if (trim p).take i ≠ ((trim p).take i).map toUpperAscii then
        err400 .KEYWORDS_NOT_UPPERCASE
      else if (trim p).take i ≠ ("HEADERS".data) ∧ (trim p).take i ≠ ("QUERY".data) ∧
              (trim p).take i ≠ ("BODY".data) then
        err400 .INVALID_KEYWORD
      else .ok ((trim p).take i, (trim p).drop (i + 1))

/-- Source lines 230-280: the value-level checks of one trailing section
(empty-section errors, JSON.parse, and the object checks).  For QUERY the
source additionally calls Object.entries on the parsed value inside the
try block: on null that call throws a TypeError, which the catch turns into
the generic invalid-JSON-format error naming the keyword. -/
def decodeVal (kw v : Str) : Except AppError JsonVal :=
  if v = [] ∨ trim v = [] then
    if kw = ("HEADERS".data) then err400 .EMPTY_HEADERS_SECTION
    else if kw = ("QUERY".data) then err400 .EMPTY_QUERY_SECTION
    else err400 .EMPTY_BODY_SECTION
  else
    match jsonParse v with
    | none => err400 (.invalidJsonFormatIn kw)
    | some j =>
      if kw = ("HEADERS".data) then
        if jsNotObjectType j then err400 .INVALID_JSON_FORMAT_HEADERS else .ok j
      else if kw = ("QUERY".data) then
        if jsNotObjectType j then err400 .INVALID_JSON_FORMAT_QUERY
        else
          match j with
          | .obj props => .ok (.obj props)
          | _ => err400 (.invalidJsonFormatIn kw)
      else .ok j

/-- The state update of one successfully decoded trailing section: HEADERS
and BODY assign their value; QUERY assigns its value and, when the derived
query string is non-empty, appends it to fullUrl after a question mark, or
after an ampersand when fullUrl already contains one (source lines
246-274). -/
def applyUpd (req : Request) (k : Str) (v : JsonVal) : Request :=
  if k = ("HEADERS".data) then { req with headers := v }
  else if k = ("QUERY".data) then
    match v with
    | .obj props =>
      if queryStringOf (propsToList props) = [] then { req with query := v }
      else
        { req with query := v,
                   fullUrl := req.fullUrl ++
                     (if req.fullUrl.contains '?' then
                        '&' :: queryStringOf (propsToList props)
                      else '?' :: queryStringOf (propsToList props)) }
    | _ => { req with query := v }
  else { req with body := v }

/-- Source lines 191-281: one iteration of the forEach over trailing
sections, with the duplicate check between the keyword checks and the
value checks exactly as in the source. -/
def processPart (seen : List Str) (req : Request) (p : Str) :
    Except AppError (List Str × Request) :=
  match decodeKw p with
  | .error e => .error e
  | .ok (k, v) =>
    if k ∈ seen then err400 .DUPLICATE_SECTION
    else
      match decodeVal k v with
      | .error e => .error e
      | .ok j => .ok (k :: seen, applyUpd req k j)

/-- The forEach over all trailing sections. -/
def processRest (seen : List Str) (req : Request) :
    List Str → Except AppError (List Str × Request)
  | [] => .ok (seen, req)
  | p :: ps =>
    match processPart seen req p with
    | .error e => .error e
    | .ok (seen', req') => processRest seen' req' ps

/-- The pipeline after the split: the strict HTTP-first / URL-second checks
of source lines 81-88, then the three section stages. -/
def parseAfterSplit (httpPart urlPart : Str) (rest : List Str) :
    Except AppError (Str × Request) :=
  if httpPart = [] ∨ ¬ List.isPrefixOf ("HTTP ".data) (trim httpPart) then
    err400 .HTTP_NOT_FIRST
  else if urlPart = [] ∨ ¬ List.isPrefixOf ("URL ".data) (trim urlPart) then
    err400 .URL_NOT_SECOND
  else
    match parseHttpPart httpPart with
    | .error e => .error e
    | .ok method =>
      match parseUrlPart urlPart with
      | .error e => .error e
      | .ok url =>
        match processRest [] ⟨.obj .nil, .obj .nil, .obj .nil, url⟩ rest with
        | .error e => .error e
        | .ok (_, req) => .ok (method, req)

/-- The whole grammar-validation and request-building phase of the source
function parse (lines 5-281): everything before the transport call. -/
def parseReqline (s : Str) : Except AppError (Str × Request) :=
  match validateAndSplit s with
  | .error e => .error e
  | .ok (httpPart, urlPart, rest) => parseAfterSplit httpPart urlPart rest

/-- Behavior of the external transport collaborator for one call: it either
resolves with a status and data, or rejects with a message and an optional
response status. -/
inductive TransportOutcome where
  | resolve (status : Nat) (data : JsonVal)
  | reject (msg : Str) (respStatus : Option Nat)

structure ExecResponse where
  httpStatus : Nat
  duration : Int
  requestStartTimestamp : Int
  requestStopTimestamp : Int
  responseData : JsonVal

structure ExecResult where
  request : Request
  response : ExecResponse

/-- Source lines 283-311: the transport call and response packaging.  The
transport behavior and the two Date.now readings are parameters of the
model.  A rejection is rethrown with the upstream response status when one
is present and 500 otherwise (line 296). -/
def executeReqline (s : Str) (t : TransportOutcome) (t0 t1 : Int) :
    Except AppError ExecResult :=
  match parseReqline s with
  | .error e => .error e
  | .ok (_, req) =>
    match t with
    | .resolve st d => .ok ⟨req, ⟨st, t1 - t0, t0, t1, d⟩⟩
    | .reject msg rs =>
      .error ⟨.transportMsg msg, match rs with
                                 | some c => c
                                 | none => 500⟩


/-- decodeKw and decodeVal of one trailing section chained, without the
stateful duplicate check; used to characterize successful processing. -/
def decodePart (p : Str) : Except AppError (Str × JsonVal) :=
  match decodeKw p with
  | .error e => .error e
  | .ok (k, v) =>
    match decodeVal k v with
    | .error e => .error e
    | .ok j => .ok (k, j)

/-- The decoded value of the first trailing section carrying keyword k. -/
def findDecoded (k : Str) : List Str → Option JsonVal
  | [] => none
  | p :: ps =>
    match decodePart p with
    | .ok (k', j) => if k' = k then some j else findDecoded k ps
    | .error _ => findDecoded k ps

/-- The keyword of a decodable trailing section (empty on failure). -/
def kwOf (p : Str) : Str :=
  match decodePart p with
  | .ok (k, _) => k
  | .error _ => []

/-- The character just before a position, given the scan state. -/
def lastOr (pre : Str) (d : Option Char) : Option Char :=
  match pre.getLast? with
  | some c => some c
  | none => d

/-- The character two before a position, given the scan state. -/
def penultOr (pre : Str) (p2 p1 : Option Char) : Option Char :=
  lastOr pre.dropLast (if pre = [] then p2 else p1)

/-
Helper lemmas about the string utilities.
-/

lemma hasTriple_sspipe_false {s : Str} (h : '|' ∉ s) :
    hasTriple ' ' ' ' '|' s = false := by
  induction s with
  | nil => rfl
  | cons x rest ih =>
    simp only [hasTriple]
    split
    · rename_i hc
      exact absurd (List.mem_cons_of_mem x
        (List.mem_of_mem_tail (List.mem_of_mem_head? hc.2.2))) h
    · exact ih (fun hm => h (List.mem_cons_of_mem x hm))

lemma hasTriple_pipess_false {s : Str} (h : '|' ∉ s) :
    hasTriple '|' ' ' ' ' s = false := by
  induction s with
  | nil => rfl
  | cons x rest ih =>
    simp only [hasTriple]
    split
    · rename_i hc
      exact absurd (hc.1 ▸ List.mem_cons_self x rest) h
    · exact ih (fun hm => h (List.mem_cons_of_mem x hm))

lemma pipeScanBad_false_of_no_pipe {s : Str} (h : '|' ∉ s) :
    ∀ p2 p1, pipeScanBad p2 p1 s = false := by
  induction s with
  | nil => intro p2 p1; rfl
  | cons x rest ih =>
    intro p2 p1
    simp only [pipeScanBad]
    split
    · rename_i hc
      exact absurd (hc.1 ▸ List.mem_cons_self x rest) h
    · exact ih (fun hm => h (List.mem_cons_of_mem x hm)) p1 (some x)

lemma hasDoubleSpace_false_of_no_space {s : Str} (h : ' ' ∉ s) :
    hasDoubleSpace s = false := by
  induction s with
  | nil => rfl
  | cons x rest ih =>
    simp only [hasDoubleSpace]
    split
    · rename_i hc
      exact absurd (hc.1 ▸ List.mem_cons_self x rest) h
    · exact ih (fun hm => h (List.mem_cons_of_mem x hm))

lemma splitPipeAux_of_no_pipe {s : Str} (h : '|' ∉ s) :
    ∀ acc, splitPipeAux s acc = [acc.reverse ++ s] := by
  induction s with
  | nil => intro acc; simp [splitPipeAux]
  | cons x rest ih =>
    intro acc
    match rest, ih with
    | [], _ => simp [splitPipeAux]
    | [d], _ => simp [splitPipeAux]
    | d :: e :: rest3, ih =>
      rw [splitPipeAux]
      rw [if_neg (fun hc => h (by
        rw [hc.2.1]
        exact List.mem_cons_of_mem x (List.mem_cons_self '|' (e :: rest3))))]
      rw [ih (fun hm => h (List.mem_cons_of_mem x hm)) (x :: acc)]
      simp

lemma splitPipes_of_no_pipe {s : Str} (h : '|' ∉ s) : splitPipes s = [s] := by
  rw [splitPipes, splitPipeAux_of_no_pipe h]
  rfl

lemma trimLeft_eq_self {s : Str} (h : ∀ c, s.head? = some c → jsWS c = false) :
    trimLeft s = s := by
  cases s with
  | nil => rfl
  | cons x rest =>
    unfold trimLeft
    rw [List.dropWhile_cons_of_neg]
    simp [h x rfl]

lemma trimRight_eq_self {s : Str} (h : ∀ c, s.getLast? = some c → jsWS c = false) :
    trimRight s = s := by
  unfold trimRight
  cases hr : s.reverse with
  | nil =>
    have hs : s = [] := by simpa using congrArg List.reverse hr
    rw [hs]
    rfl
  | cons y t =>
    have hy : s.getLast? = some y := by
      rw [← List.head?_reverse, hr]
      rfl
    rw [List.dropWhile_cons_of_neg (by simp [h y hy])]
    rw [← hr, List.reverse_reverse]

lemma trim_eq_self {s : Str} (h1 : ∀ c, s.head? = some c → jsWS c = false)
    (h2 : ∀ c, s.getLast? = some c → jsWS c = false) : trim s = s := by
  rw [trim, trimLeft_eq_self h1, trimRight_eq_self h2]

lemma prefixOf_exists : ∀ {p l : Str}, List.isPrefixOf p l = true → ∃ t, l = p ++ t := by
  intro p
  induction p with
  | nil => intro l _; exact ⟨l, rfl⟩
  | cons a as ih =>
    intro l h
    cases l with
    | nil => simp [List.isPrefixOf] at h
    | cons b bs =>
      simp only [List.isPrefixOf, Bool.and_eq_true, beq_iff_eq] at h
      obtain ⟨t, ht⟩ := ih h.2
      exact ⟨t, by rw [h.1, ht]; rfl⟩

lemma prefixOf_append (p t : Str) : List.isPrefixOf p (p ++ t) = true := by
  induction p with
  | nil => simp [List.isPrefixOf]
  | cons a as ih => simp [List.isPrefixOf, List.append_eq, ih]

lemma contains_false_of_not_mem {a : Char} {l : Str} (h : a ∉ l) :
    l.contains a = false := by
  induction l with
  | nil => rfl
  | cons x xs ih =>
    have hax : ¬ a = x := fun he => h (he ▸ List.mem_cons_self x xs)
    have hxs : a ∉ xs := fun hm => h (List.mem_cons_of_mem x hm)
    simp [List.contains_cons, hax, ih hxs, hxs]

/-- The URL value extracted from a valid URL section is accepted: the URL
stage of the source (lines 136-175) succeeds on a section URL followed by a
space-free, scheme-prefixed url of length over 8 whose last character is
not whitespace. -/
lemma parseUrlPart_ok (U : Str) (hne : U ≠ [])
    (hws : ∀ c, U.getLast? = some c → jsWS c = false)
    (hsp : ' ' ∉ U)
    (hsch : List.isPrefixOf ("http://".data) U = true ∨
            List.isPrefixOf ("https://".data) U = true)
    (hlen : 8 < U.length) :
    parseUrlPart (("URL ".data) ++ U) = .ok U := by
  have htrim : trim ('U' :: 'R' :: 'L' :: ' ' :: U) = 'U' :: 'R' :: 'L' :: ' ' :: U := by
    apply trim_eq_self
    · intro c hc
      simp at hc
      rw [← hc]
      rfl
    · intro c hc
      rw [show ('U' :: 'R' :: 'L' :: ' ' :: U) = ("URL ".data) ++ U from rfl] at hc
      rw [List.getLast?_append_of_ne_nil _ hne] at hc
      exact hws c hc
  have hU0 : ¬ (U.head? = some ' ') := fun hc => hsp (List.mem_of_mem_head? hc)
  have hds : hasDoubleSpace ('U' :: 'R' :: 'L' :: ' ' :: U) = false := by
    simp [hasDoubleSpace, hU0, hasDoubleSpace_false_of_no_space hsp]
  show parseUrlPart ('U' :: 'R' :: 'L' :: ' ' :: U) = .ok U
  unfold parseUrlPart
  rw [if_neg (by simp [htrim])]
  rw [hds, if_neg (by simp)]
  rw [htrim]
  show (if U = [] then err400 ErrMsg.MISSING_SPACE_AFTER_KEYWORD
        else if U.contains ' ' = true then err400 ErrMsg.MULTIPLE_SPACES_FOUND
        else if ¬ ((List.isPrefixOf ("http://".data) U = true ∨
                    List.isPrefixOf ("https://".data) U = true) ∧ 8 < U.length) then
          err400 ErrMsg.INVALID_URL_FORMAT
        else Except.ok U) = Except.ok U
  rw [if_neg hne]
  rw [if_neg (by simpa using hsp)]
  rw [if_neg (not_not_intro ⟨hsch, hlen⟩)]

lemma trim_url_concat (U : Str) (hne : U ≠ [])
    (hws : ∀ c, U.getLast? = some c → jsWS c = false) :
    trim (("URL ".data) ++ U) = ("URL ".data) ++ U := by
  show trim ('U' :: 'R' :: 'L' :: ' ' :: U) = ("URL ".data) ++ U
  apply trim_eq_self
  · intro c hc
    simp at hc
    rw [← hc]
    rfl
  · intro c hc
    rw [show ('U' :: 'R' :: 'L' :: ' ' :: U) = ("URL ".data) ++ U from rfl] at hc
    rw [List.getLast?_append_of_ne_nil _ hne] at hc
    exact hws c hc

lemma validateAndSplit_get_http (V : Str) (hVne : V ≠ [])
    (hpiV : '|' ∉ V) (hwsV : ∀ c, V.getLast? = some c → jsWS c = false) :
    validateAndSplit ('[' :: (('H' :: 'T' :: 'T' :: 'P' :: ' ' :: 'G' :: 'E' :: 'T' :: ' ' :: '|' :: ' ' :: 'U' :: 'R' :: 'L' :: ' ' :: 'h' :: 't' :: 't' :: 'p' :: ':' :: '/' :: '/' :: V) ++ [']'])) =
      .ok (("HTTP GET".data), ("URL ".data) ++ (("http://".data) ++ V), []) := by
  have hsl : '|' ∉ ('/' :: '/' :: V) := by simp [hpiV]
  have hgl : ('[' :: (('H' :: 'T' :: 'T' :: 'P' :: ' ' :: 'G' :: 'E' :: 'T' :: ' ' :: '|' :: ' ' :: 'U' :: 'R' :: 'L' :: ' ' :: 'h' :: 't' :: 't' :: 'p' :: ':' :: '/' :: '/' :: V) ++ [']'])).getLast? = some ']' := by
    rw [show ('[' :: (('H' :: 'T' :: 'T' :: 'P' :: ' ' :: 'G' :: 'E' :: 'T' :: ' ' :: '|' :: ' ' :: 'U' :: 'R' :: 'L' :: ' ' :: 'h' :: 't' :: 't' :: 'p' :: ':' :: '/' :: '/' :: V) ++ [']'])) =
          ('[' :: ('H' :: 'T' :: 'T' :: 'P' :: ' ' :: 'G' :: 'E' :: 'T' :: ' ' :: '|' :: ' ' :: 'U' :: 'R' :: 'L' :: ' ' :: 'h' :: 't' :: 't' :: 'p' :: ':' :: '/' :: '/' :: V)) ++ [']'] from rfl]
    exact List.getLast?_concat _
  have htrimC : trim ('H' :: 'T' :: 'T' :: 'P' :: ' ' :: 'G' :: 'E' :: 'T' :: ' ' :: '|' :: ' ' :: 'U' :: 'R' :: 'L' :: ' ' :: 'h' :: 't' :: 't' :: 'p' :: ':' :: '/' :: '/' :: V) = 'H' :: 'T' :: 'T' :: 'P' :: ' ' :: 'G' :: 'E' :: 'T' :: ' ' :: '|' :: ' ' :: 'U' :: 'R' :: 'L' :: ' ' :: 'h' :: 't' :: 't' :: 'p' :: ':' :: '/' :: '/' :: V := by
    apply trim_eq_self
    · intro c hc
      simp at hc
      rw [← hc]
      rfl
    · intro c hc
      rw [show ('H' :: 'T' :: 'T' :: 'P' :: ' ' :: 'G' :: 'E' :: 'T' :: ' ' :: '|' :: ' ' :: 'U' :: 'R' :: 'L' :: ' ' :: 'h' :: 't' :: 't' :: 'p' :: ':' :: '/' :: '/' :: V) = (("HTTP GET | URL http://".data)) ++ V from rfl] at hc
      rw [List.getLast?_append_of_ne_nil _ hVne] at hc
      exact hwsV c hc
  unfold validateAndSplit
  rw [if_neg (by simp)]
  rw [if_neg (not_not_intro ⟨rfl, hgl⟩)]
  rw [show ('[' :: (('H' :: 'T' :: 'T' :: 'P' :: ' ' :: 'G' :: 'E' :: 'T' :: ' ' :: '|' :: ' ' :: 'U' :: 'R' :: 'L' :: ' ' :: 'h' :: 't' :: 't' :: 'p' :: ':' :: '/' :: '/' :: V) ++ [']'])).drop 1 = ('H' :: 'T' :: 'T' :: 'P' :: ' ' :: 'G' :: 'E' :: 'T' :: ' ' :: '|' :: ' ' :: 'U' :: 'R' :: 'L' :: ' ' :: 'h' :: 't' :: 't' :: 'p' :: ':' :: '/' :: '/' :: V) ++ [']'] from rfl]
  rw [List.dropLast_concat, htrimC]
  rw [if_neg (by simp)]
  rw [(by simp [hasTriple, hasTriple_sspipe_false hpiV] :
        hasTriple ' ' ' ' '|' ('H' :: 'T' :: 'T' :: 'P' :: ' ' :: 'G' :: 'E' :: 'T' :: ' ' :: '|' :: ' ' :: 'U' :: 'R' :: 'L' :: ' ' :: 'h' :: 't' :: 't' :: 'p' :: ':' :: '/' :: '/' :: V) = false)]
  rw [if_neg (by simp)]
  rw [(by simp [hasTriple, hasTriple_pipess_false hpiV] :
        hasTriple '|' ' ' ' ' ('H' :: 'T' :: 'T' :: 'P' :: ' ' :: 'G' :: 'E' :: 'T' :: ' ' :: '|' :: ' ' :: 'U' :: 'R' :: 'L' :: ' ' :: 'h' :: 't' :: 't' :: 'p' :: ':' :: '/' :: '/' :: V) = false)]
  rw [if_neg (by simp)]
  rw [(by simp [pipeScanBad, pipeScanBad_false_of_no_pipe hpiV] :
        pipeScanBad none none ('H' :: 'T' :: 'T' :: 'P' :: ' ' :: 'G' :: 'E' :: 'T' :: ' ' :: '|' :: ' ' :: 'U' :: 'R' :: 'L' :: ' ' :: 'h' :: 't' :: 't' :: 'p' :: ':' :: '/' :: '/' :: V) = false)]
  rw [if_neg (by simp)]
  rw [(by rw [splitPipes]; simp [splitPipeAux, splitPipeAux_of_no_pipe hsl] :
        splitPipes ('H' :: 'T' :: 'T' :: 'P' :: ' ' :: 'G' :: 'E' :: 'T' :: ' ' :: '|' :: ' ' :: 'U' :: 'R' :: 'L' :: ' ' :: 'h' :: 't' :: 't' :: 'p' :: ':' :: '/' :: '/' :: V) = ['H' :: 'T' :: 'T' :: 'P' :: ' ' :: 'G' :: 'E' :: 'T' :: ([] : Str), 'U' :: 'R' :: 'L' :: ' ' :: 'h' :: 't' :: 't' :: 'p' :: ':' :: '/' :: '/' :: V])]
  rfl

lemma validateAndSplit_get_https (V : Str) (hVne : V ≠ [])
    (hpiV : '|' ∉ V) (hwsV : ∀ c, V.getLast? = some c → jsWS c = false) :
    validateAndSplit ('[' :: (('H' :: 'T' :: 'T' :: 'P' :: ' ' :: 'G' :: 'E' :: 'T' :: ' ' :: '|' :: ' ' :: 'U' :: 'R' :: 'L' :: ' ' :: 'h' :: 't' :: 't' :: 'p' :: 's' :: ':' :: '/' :: '/' :: V) ++ [']'])) =
      .ok (("HTTP GET".data), ("URL ".data) ++ (("https://".data) ++ V), []) := by
  have hsl : '|' ∉ ('/' :: '/' :: V) := by simp [hpiV]
  have hgl : ('[' :: (('H' :: 'T' :: 'T' :: 'P' :: ' ' :: 'G' :: 'E' :: 'T' :: ' ' :: '|' :: ' ' :: 'U' :: 'R' :: 'L' :: ' ' :: 'h' :: 't' :: 't' :: 'p' :: 's' :: ':' :: '/' :: '/' :: V) ++ [']'])).getLast? = some ']' := by
    rw [show ('[' :: (('H' :: 'T' :: 'T' :: 'P' :: ' ' :: 'G' :: 'E' :: 'T' :: ' ' :: '|' :: ' ' :: 'U' :: 'R' :: 'L' :: ' ' :: 'h' :: 't' :: 't' :: 'p' :: 's' :: ':' :: '/' :: '/' :: V) ++ [']'])) =
          ('[' :: ('H' :: 'T' :: 'T' :: 'P' :: ' ' :: 'G' :: 'E' :: 'T' :: ' ' :: '|' :: ' ' :: 'U' :: 'R' :: 'L' :: ' ' :: 'h' :: 't' :: 't' :: 'p' :: 's' :: ':' :: '/' :: '/' :: V)) ++ [']'] from rfl]
    exact List.getLast?_concat _
  have htrimC : trim ('H' :: 'T' :: 'T' :: 'P' :: ' ' :: 'G' :: 'E' :: 'T' :: ' ' :: '|' :: ' ' :: 'U' :: 'R' :: 'L' :: ' ' :: 'h' :: 't' :: 't' :: 'p' :: 's' :: ':' :: '/' :: '/' :: V) = 'H' :: 'T' :: 'T' :: 'P' :: ' ' :: 'G' :: 'E' :: 'T' :: ' ' :: '|' :: ' ' :: 'U' :: 'R' :: 'L' :: ' ' :: 'h' :: 't' :: 't' :: 'p' :: 's' :: ':' :: '/' :: '/' :: V := by
    apply trim_eq_self
    · intro c hc
      simp at hc
      rw [← hc]
      rfl
    · intro c hc
      rw [show ('H' :: 'T' :: 'T' :: 'P' :: ' ' :: 'G' :: 'E' :: 'T' :: ' ' :: '|' :: ' ' :: 'U' :: 'R' :: 'L' :: ' ' :: 'h' :: 't' :: 't' :: 'p' :: 's' :: ':' :: '/' :: '/' :: V) = (("HTTP GET | URL https://".data)) ++ V from rfl] at hc
      rw [List.getLast?_append_of_ne_nil _ hVne] at hc
      exact hwsV c hc
  unfold validateAndSplit
  rw [if_neg (by simp)]
  rw [if_neg (not_not_intro ⟨rfl, hgl⟩)]
  rw [show ('[' :: (('H' :: 'T' :: 'T' :: 'P' :: ' ' :: 'G' :: 'E' :: 'T' :: ' ' :: '|' :: ' ' :: 'U' :: 'R' :: 'L' :: ' ' :: 'h' :: 't' :: 't' :: 'p' :: 's' :: ':' :: '/' :: '/' :: V) ++ [']'])).drop 1 = ('H' :: 'T' :: 'T' :: 'P' :: ' ' :: 'G' :: 'E' :: 'T' :: ' ' :: '|' :: ' ' :: 'U' :: 'R' :: 'L' :: ' ' :: 'h' :: 't' :: 't' :: 'p' :: 's' :: ':' :: '/' :: '/' :: V) ++ [']'] from rfl]
  rw [List.dropLast_concat, htrimC]
  rw [if_neg (by simp)]
  rw [(by simp [hasTriple, hasTriple_sspipe_false hpiV] :
        hasTriple ' ' ' ' '|' ('H' :: 'T' :: 'T' :: 'P' :: ' ' :: 'G' :: 'E' :: 'T' :: ' ' :: '|' :: ' ' :: 'U' :: 'R' :: 'L' :: ' ' :: 'h' :: 't' :: 't' :: 'p' :: 's' :: ':' :: '/' :: '/' :: V) = false)]
  rw [if_neg (by simp)]
  rw [(by simp [hasTriple, hasTriple_pipess_false hpiV] :
        hasTriple '|' ' ' ' ' ('H' :: 'T' :: 'T' :: 'P' :: ' ' :: 'G' :: 'E' :: 'T' :: ' ' :: '|' :: ' ' :: 'U' :: 'R' :: 'L' :: ' ' :: 'h' :: 't' :: 't' :: 'p' :: 's' :: ':' :: '/' :: '/' :: V) = false)]
  rw [if_neg (by simp)]
  rw [(by simp [pipeScanBad, pipeScanBad_false_of_no_pipe hpiV] :
        pipeScanBad none none ('H' :: 'T' :: 'T' :: 'P' :: ' ' :: 'G' :: 'E' :: 'T' :: ' ' :: '|' :: ' ' :: 'U' :: 'R' :: 'L' :: ' ' :: 'h' :: 't' :: 't' :: 'p' :: 's' :: ':' :: '/' :: '/' :: V) = false)]
  rw [if_neg (by simp)]
  rw [(by rw [splitPipes]; simp [splitPipeAux, splitPipeAux_of_no_pipe hsl] :
        splitPipes ('H' :: 'T' :: 'T' :: 'P' :: ' ' :: 'G' :: 'E' :: 'T' :: ' ' :: '|' :: ' ' :: 'U' :: 'R' :: 'L' :: ' ' :: 'h' :: 't' :: 't' :: 'p' :: 's' :: ':' :: '/' :: '/' :: V) = ['H' :: 'T' :: 'T' :: 'P' :: ' ' :: 'G' :: 'E' :: 'T' :: ([] : Str), 'U' :: 'R' :: 'L' :: ' ' :: 'h' :: 't' :: 't' :: 'p' :: 's' :: ':' :: '/' :: '/' :: V])]
  rfl

lemma validateAndSplit_post_http (V : Str) (hVne : V ≠ [])
    (hpiV : '|' ∉ V) (hwsV : ∀ c, V.getLast? = some c → jsWS c = false) :
    validateAndSplit ('[' :: (('H' :: 'T' :: 'T' :: 'P' :: ' ' :: 'P' :: 'O' :: 'S' :: 'T' :: ' ' :: '|' :: ' ' :: 'U' :: 'R' :: 'L' :: ' ' :: 'h' :: 't' :: 't' :: 'p' :: ':' :: '/' :: '/' :: V) ++ [']'])) =
      .ok (("HTTP POST".data), ("URL ".data) ++ (("http://".data) ++ V), []) := by
  have hsl : '|' ∉ ('/' :: '/' :: V) := by simp [hpiV]
  have hgl : ('[' :: (('H' :: 'T' :: 'T' :: 'P' :: ' ' :: 'P' :: 'O' :: 'S' :: 'T' :: ' ' :: '|' :: ' ' :: 'U' :: 'R' :: 'L' :: ' ' :: 'h' :: 't' :: 't' :: 'p' :: ':' :: '/' :: '/' :: V) ++ [']'])).getLast? = some ']' := by
    rw [show ('[' :: (('H' :: 'T' :: 'T' :: 'P' :: ' ' :: 'P' :: 'O' :: 'S' :: 'T' :: ' ' :: '|' :: ' ' :: 'U' :: 'R' :: 'L' :: ' ' :: 'h' :: 't' :: 't' :: 'p' :: ':' :: '/' :: '/' :: V) ++ [']'])) =
          ('[' :: ('H' :: 'T' :: 'T' :: 'P' :: ' ' :: 'P' :: 'O' :: 'S' :: 'T' :: ' ' :: '|' :: ' ' :: 'U' :: 'R' :: 'L' :: ' ' :: 'h' :: 't' :: 't' :: 'p' :: ':' :: '/' :: '/' :: V)) ++ [']'] from rfl]
    exact List.getLast?_concat _
  have htrimC : trim ('H' :: 'T' :: 'T' :: 'P' :: ' ' :: 'P' :: 'O' :: 'S' :: 'T' :: ' ' :: '|' :: ' ' :: 'U' :: 'R' :: 'L' :: ' ' :: 'h' :: 't' :: 't' :: 'p' :: ':' :: '/' :: '/' :: V) = 'H' :: 'T' :: 'T' :: 'P' :: ' ' :: 'P' :: 'O' :: 'S' :: 'T' :: ' ' :: '|' :: ' ' :: 'U' :: 'R' :: 'L' :: ' ' :: 'h' :: 't' :: 't' :: 'p' :: ':' :: '/' :: '/' :: V := by
    apply trim_eq_self
    · intro c hc
      simp at hc
      rw [← hc]
      rfl
    · intro c hc
      rw [show ('H' :: 'T' :: 'T' :: 'P' :: ' ' :: 'P' :: 'O' :: 'S' :: 'T' :: ' ' :: '|' :: ' ' :: 'U' :: 'R' :: 'L' :: ' ' :: 'h' :: 't' :: 't' :: 'p' :: ':' :: '/' :: '/' :: V) = (("HTTP POST | URL http://".data)) ++ V from rfl] at hc
      rw [List.getLast?_append_of_ne_nil _ hVne] at hc
      exact hwsV c hc
  unfold validateAndSplit
  rw [if_neg (by simp)]
  rw [if_neg (not_not_intro ⟨rfl, hgl⟩)]
  rw [show ('[' :: (('H' :: 'T' :: 'T' :: 'P' :: ' ' :: 'P' :: 'O' :: 'S' :: 'T' :: ' ' :: '|' :: ' ' :: 'U' :: 'R' :: 'L' :: ' ' :: 'h' :: 't' :: 't' :: 'p' :: ':' :: '/' :: '/' :: V) ++ [']'])).drop 1 = ('H' :: 'T' :: 'T' :: 'P' :: ' ' :: 'P' :: 'O' :: 'S' :: 'T' :: ' ' :: '|' :: ' ' :: 'U' :: 'R' :: 'L' :: ' ' :: 'h' :: 't' :: 't' :: 'p' :: ':' :: '/' :: '/' :: V) ++ [']'] from rfl]
  rw [List.dropLast_concat, htrimC]
  rw [if_neg (by simp)]
  rw [(by simp [hasTriple, hasTriple_sspipe_false hpiV] :
        hasTriple ' ' ' ' '|' ('H' :: 'T' :: 'T' :: 'P' :: ' ' :: 'P' :: 'O' :: 'S' :: 'T' :: ' ' :: '|' :: ' ' :: 'U' :: 'R' :: 'L' :: ' ' :: 'h' :: 't' :: 't' :: 'p' :: ':' :: '/' :: '/' :: V) = false)]
  rw [if_neg (by simp)]
  rw [(by simp [hasTriple, hasTriple_pipess_false hpiV] :
        hasTriple '|' ' ' ' ' ('H' :: 'T' :: 'T' :: 'P' :: ' ' :: 'P' :: 'O' :: 'S' :: 'T' :: ' ' :: '|' :: ' ' :: 'U' :: 'R' :: 'L' :: ' ' :: 'h' :: 't' :: 't' :: 'p' :: ':' :: '/' :: '/' :: V) = false)]
  rw [if_neg (by simp)]
  rw [(by simp [pipeScanBad, pipeScanBad_false_of_no_pipe hpiV] :
        pipeScanBad none none ('H' :: 'T' :: 'T' :: 'P' :: ' ' :: 'P' :: 'O' :: 'S' :: 'T' :: ' ' :: '|' :: ' ' :: 'U' :: 'R' :: 'L' :: ' ' :: 'h' :: 't' :: 't' :: 'p' :: ':' :: '/' :: '/' :: V) = false)]
  rw [if_neg (by simp)]
  rw [(by rw [splitPipes]; simp [splitPipeAux, splitPipeAux_of_no_pipe hsl] :
        splitPipes ('H' :: 'T' :: 'T' :: 'P' :: ' ' :: 'P' :: 'O' :: 'S' :: 'T' :: ' ' :: '|' :: ' ' :: 'U' :: 'R' :: 'L' :: ' ' :: 'h' :: 't' :: 't' :: 'p' :: ':' :: '/' :: '/' :: V) = ['H' :: 'T' :: 'T' :: 'P' :: ' ' :: 'P' :: 'O' :: 'S' :: 'T' :: ([] : Str), 'U' :: 'R' :: 'L' :: ' ' :: 'h' :: 't' :: 't' :: 'p' :: ':' :: '/' :: '/' :: V])]
  rfl

lemma validateAndSplit_post_https (V : Str) (hVne : V ≠ [])
    (hpiV : '|' ∉ V) (hwsV : ∀ c, V.getLast? = some c → jsWS c = false) :
    validateAndSplit ('[' :: (('H' :: 'T' :: 'T' :: 'P' :: ' ' :: 'P' :: 'O' :: 'S' :: 'T' :: ' ' :: '|' :: ' ' :: 'U' :: 'R' :: 'L' :: ' ' :: 'h' :: 't' :: 't' :: 'p' :: 's' :: ':' :: '/' :: '/' :: V) ++ [']'])) =
      .ok (("HTTP POST".data), ("URL ".data) ++ (("https://".data) ++ V), []) := by
  have hsl : '|' ∉ ('/' :: '/' :: V) := by simp [hpiV]
  have hgl : ('[' :: (('H' :: 'T' :: 'T' :: 'P' :: ' ' :: 'P' :: 'O' :: 'S' :: 'T' :: ' ' :: '|' :: ' ' :: 'U' :: 'R' :: 'L' :: ' ' :: 'h' :: 't' :: 't' :: 'p' :: 's' :: ':' :: '/' :: '/' :: V) ++ [']'])).getLast? = some ']' := by
    rw [show ('[' :: (('H' :: 'T' :: 'T' :: 'P' :: ' ' :: 'P' :: 'O' :: 'S' :: 'T' :: ' ' :: '|' :: ' ' :: 'U' :: 'R' :: 'L' :: ' ' :: 'h' :: 't' :: 't' :: 'p' :: 's' :: ':' :: '/' :: '/' :: V) ++ [']'])) =
          ('[' :: ('H' :: 'T' :: 'T' :: 'P' :: ' ' :: 'P' :: 'O' :: 'S' :: 'T' :: ' ' :: '|' :: ' ' :: 'U' :: 'R' :: 'L' :: ' ' :: 'h' :: 't' :: 't' :: 'p' :: 's' :: ':' :: '/' :: '/' :: V)) ++ [']'] from rfl]
    exact List.getLast?_concat _
  have htrimC : trim ('H' :: 'T' :: 'T' :: 'P' :: ' ' :: 'P' :: 'O' :: 'S' :: 'T' :: ' ' :: '|' :: ' ' :: 'U' :: 'R' :: 'L' :: ' ' :: 'h' :: 't' :: 't' :: 'p' :: 's' :: ':' :: '/' :: '/' :: V) = 'H' :: 'T' :: 'T' :: 'P' :: ' ' :: 'P' :: 'O' :: 'S' :: 'T' :: ' ' :: '|' :: ' ' :: 'U' :: 'R' :: 'L' :: ' ' :: 'h' :: 't' :: 't' :: 'p' :: 's' :: ':' :: '/' :: '/' :: V := by
    apply trim_eq_self
    · intro c hc
      simp at hc
      rw [← hc]
      rfl
    · intro c hc
      rw [show ('H' :: 'T' :: 'T' :: 'P' :: ' ' :: 'P' :: 'O' :: 'S' :: 'T' :: ' ' :: '|' :: ' ' :: 'U' :: 'R' :: 'L' :: ' ' :: 'h' :: 't' :: 't' :: 'p' :: 's' :: ':' :: '/' :: '/' :: V) = (("HTTP POST | URL https://".data)) ++ V from rfl] at hc
      rw [List.getLast?_append_of_ne_nil _ hVne] at hc
      exact hwsV c hc
  unfold validateAndSplit
  rw [if_neg (by simp)]
  rw [if_neg (not_not_intro ⟨rfl, hgl⟩)]
  rw [show ('[' :: (('H' :: 'T' :: 'T' :: 'P' :: ' ' :: 'P' :: 'O' :: 'S' :: 'T' :: ' ' :: '|' :: ' ' :: 'U' :: 'R' :: 'L' :: ' ' :: 'h' :: 't' :: 't' :: 'p' :: 's' :: ':' :: '/' :: '/' :: V) ++ [']'])).drop 1 = ('H' :: 'T' :: 'T' :: 'P' :: ' ' :: 'P' :: 'O' :: 'S' :: 'T' :: ' ' :: '|' :: ' ' :: 'U' :: 'R' :: 'L' :: ' ' :: 'h' :: 't' :: 't' :: 'p' :: 's' :: ':' :: '/' :: '/' :: V) ++ [']'] from rfl]
  rw [List.dropLast_concat, htrimC]
  rw [if_neg (by simp)]
  rw [(by simp [hasTriple, hasTriple_sspipe_false hpiV] :
        hasTriple ' ' ' ' '|' ('H' :: 'T' :: 'T' :: 'P' :: ' ' :: 'P' :: 'O' :: 'S' :: 'T' :: ' ' :: '|' :: ' ' :: 'U' :: 'R' :: 'L' :: ' ' :: 'h' :: 't' :: 't' :: 'p' :: 's' :: ':' :: '/' :: '/' :: V) = false)]
  rw [if_neg (by simp)]
  rw [(by simp [hasTriple, hasTriple_pipess_false hpiV] :
        hasTriple '|' ' ' ' ' ('H' :: 'T' :: 'T' :: 'P' :: ' ' :: 'P' :: 'O' :: 'S' :: 'T' :: ' ' :: '|' :: ' ' :: 'U' :: 'R' :: 'L' :: ' ' :: 'h' :: 't' :: 't' :: 'p' :: 's' :: ':' :: '/' :: '/' :: V) = false)]
  rw [if_neg (by simp)]
  rw [(by simp [pipeScanBad, pipeScanBad_false_of_no_pipe hpiV] :
        pipeScanBad none none ('H' :: 'T' :: 'T' :: 'P' :: ' ' :: 'P' :: 'O' :: 'S' :: 'T' :: ' ' :: '|' :: ' ' :: 'U' :: 'R' :: 'L' :: ' ' :: 'h' :: 't' :: 't' :: 'p' :: 's' :: ':' :: '/' :: '/' :: V) = false)]
  rw [if_neg (by simp)]
  rw [(by rw [splitPipes]; simp [splitPipeAux, splitPipeAux_of_no_pipe hsl] :
        splitPipes ('H' :: 'T' :: 'T' :: 'P' :: ' ' :: 'P' :: 'O' :: 'S' :: 'T' :: ' ' :: '|' :: ' ' :: 'U' :: 'R' :: 'L' :: ' ' :: 'h' :: 't' :: 't' :: 'p' :: 's' :: ':' :: '/' :: '/' :: V) = ['H' :: 'T' :: 'T' :: 'P' :: ' ' :: 'P' :: 'O' :: 'S' :: 'T' :: ([] : Str), 'U' :: 'R' :: 'L' :: ' ' :: 'h' :: 't' :: 't' :: 'p' :: 's' :: ':' :: '/' :: '/' :: V])]
  rfl

/-- A minimal reqline with only the two fixed sections parses to the default
request: method as given, empty query, body and headers, and fullUrl equal
to the url value.  The url value here contains no space, no pipe character,
and no trailing whitespace (each of which would change the outcome). -/
lemma simple_reqline_ok (M U : Str)
    (hM : M = ("GET".data) ∨ M = ("POST".data))
    (hsch : List.isPrefixOf ("http://".data) U = true ∨
            List.isPrefixOf ("https://".data) U = true)
    (hlen : 8 < U.length)
    (hsp : ' ' ∉ U) (hpi : '|' ∉ U)
    (hws : ∀ c, U.getLast? = some c → jsWS c = false) :
    parseReqline (("[HTTP ".data) ++ M ++ (" | URL ".data) ++ U ++ ("]".data)) =
      .ok (M, ⟨.obj .nil, .obj .nil, .obj .nil, U⟩) := by
  rcases hM with rfl | rfl <;> rcases hsch with h | h
  · obtain ⟨V, rfl⟩ := prefixOf_exists h
    have hVne : V ≠ [] := by
      intro hv
      rw [hv] at hlen
      exact absurd hlen (by decide)
    have hpiV : '|' ∉ V := fun hm => hpi (List.mem_append_right _ hm)
    have hwsV : ∀ c, V.getLast? = some c → jsWS c = false := fun c hc =>
      hws c (by rw [List.getLast?_append_of_ne_nil _ hVne]; exact hc)
    have hXne : (("http://".data) ++ V) ≠ [] := fun hh =>
      List.noConfusion (show ('h' :: ('t' :: ("tp://".data ++ V))) = ([] : Str) from hh)
    have hvs := validateAndSplit_get_http V hVne hpiV hwsV
    unfold parseReqline
    rw [show (("[HTTP ".data) ++ ("GET".data) ++ (" | URL ".data) ++
              (("http://".data) ++ V) ++ ("]".data)) =
          ('[' :: (('H' :: 'T' :: 'T' :: 'P' :: ' ' :: 'G' :: 'E' :: 'T' :: ' ' :: '|' :: ' ' :: 'U' :: 'R' :: 'L' :: ' ' :: 'h' :: 't' :: 't' :: 'p' :: ':' :: '/' :: '/' :: V) ++ [']'])) from rfl]
    rw [hvs]
    show parseAfterSplit (("HTTP GET".data))
        ((("URL ".data) ++ (("http://".data) ++ V))) [] =
      .ok (("GET".data), ⟨.obj .nil, .obj .nil, .obj .nil, ("http://".data) ++ V⟩)
    unfold parseAfterSplit
    rw [if_neg (by decide)]
    rw [if_neg (by
      intro hor
      rcases hor with h1 | h2
      · exact absurd (show ('U' :: ('R' :: 'L' :: ' ' :: (("http://".data) ++ V))) =
            ([] : Str) from h1) (by simp)
      · rw [trim_url_concat _ hXne hws] at h2
        exact h2 (prefixOf_append _ _))]
    rw [show parseHttpPart (("HTTP GET".data)) = .ok (("GET".data)) from rfl]
    rw [parseUrlPart_ok (("http://".data) ++ V) hXne hws hsp (Or.inl h) hlen]
    rfl
  · obtain ⟨V, rfl⟩ := prefixOf_exists h
    have hVne : V ≠ [] := by
      intro hv
      rw [hv] at hlen
      exact absurd hlen (by decide)
    have hpiV : '|' ∉ V := fun hm => hpi (List.mem_append_right _ hm)
    have hwsV : ∀ c, V.getLast? = some c → jsWS c = false := fun c hc =>
      hws c (by rw [List.getLast?_append_of_ne_nil _ hVne]; exact hc)
    have hXne : (("https://".data) ++ V) ≠ [] := fun hh =>
      List.noConfusion (show ('h' :: ('t' :: ("tps://".data ++ V))) = ([] : Str) from hh)
    have hvs := validateAndSplit_get_https V hVne hpiV hwsV
    unfold parseReqline
    rw [show (("[HTTP ".data) ++ ("GET".data) ++ (" | URL ".data) ++
              (("https://".data) ++ V) ++ ("]".data)) =
          ('[' :: (('H' :: 'T' :: 'T' :: 'P' :: ' ' :: 'G' :: 'E' :: 'T' :: ' ' :: '|' :: ' ' :: 'U' :: 'R' :: 'L' :: ' ' :: 'h' :: 't' :: 't' :: 'p' :: 's' :: ':' :: '/' :: '/' :: V) ++ [']'])) from rfl]
    rw [hvs]
    show parseAfterSplit (("HTTP GET".data))
        ((("URL ".data) ++ (("https://".data) ++ V))) [] =
      .ok (("GET".data), ⟨.obj .nil, .obj .nil, .obj .nil, ("https://".data) ++ V⟩)
    unfold parseAfterSplit
    rw [if_neg (by decide)]
    rw [if_neg (by
      intro hor
      rcases hor with h1 | h2
      · exact absurd (show ('U' :: ('R' :: 'L' :: ' ' :: (("https://".data) ++ V))) =
            ([] : Str) from h1) (by simp)
      · rw [trim_url_concat _ hXne hws] at h2
        exact h2 (prefixOf_append _ _))]
    rw [show parseHttpPart (("HTTP GET".data)) = .ok (("GET".data)) from rfl]
    rw [parseUrlPart_ok (("https://".data) ++ V) hXne hws hsp (Or.inr h) hlen]
    rfl
  · obtain ⟨V, rfl⟩ := prefixOf_exists h
    have hVne : V ≠ [] := by
      intro hv
      rw [hv] at hlen
      exact absurd hlen (by decide)
    have hpiV : '|' ∉ V := fun hm => hpi (List.mem_append_right _ hm)
    have hwsV : ∀ c, V.getLast? = some c → jsWS c = false := fun c hc =>
      hws c (by rw [List.getLast?_append_of_ne_nil _ hVne]; exact hc)
    have hXne : (("http://".data) ++ V) ≠ [] := fun hh =>
      List.noConfusion (show ('h' :: ('t' :: ("tp://".data ++ V))) = ([] : Str) from hh)
    have hvs := validateAndSplit_post_http V hVne hpiV hwsV
    unfold parseReqline
    rw [show (("[HTTP ".data) ++ ("POST".data) ++ (" | URL ".data) ++
              (("http://".data) ++ V) ++ ("]".data)) =
          ('[' :: (('H' :: 'T' :: 'T' :: 'P' :: ' ' :: 'P' :: 'O' :: 'S' :: 'T' :: ' ' :: '|' :: ' ' :: 'U' :: 'R' :: 'L' :: ' ' :: 'h' :: 't' :: 't' :: 'p' :: ':' :: '/' :: '/' :: V) ++ [']'])) from rfl]
    rw [hvs]
    show parseAfterSplit (("HTTP POST".data))
        ((("URL ".data) ++ (("http://".data) ++ V))) [] =
      .ok (("POST".data), ⟨.obj .nil, .obj .nil, .obj .nil, ("http://".data) ++ V⟩)
    unfold parseAfterSplit
    rw [if_neg (by decide)]
    rw [if_neg (by
      intro hor
      rcases hor with h1 | h2
      · exact absurd (show ('U' :: ('R' :: 'L' :: ' ' :: (("http://".data) ++ V))) =
            ([] : Str) from h1) (by simp)
      · rw [trim_url_concat _ hXne hws] at h2
        exact h2 (prefixOf_append _ _))]
    rw [show parseHttpPart (("HTTP POST".data)) = .ok (("POST".data)) from rfl]
    rw [parseUrlPart_ok (("http://".data) ++ V) hXne hws hsp (Or.inl h) hlen]
    rfl
  · obtain ⟨V, rfl⟩ := prefixOf_exists h
    have hVne : V ≠ [] := by
      intro hv
      rw [hv] at hlen
      exact absurd hlen (by decide)
    have hpiV : '|' ∉ V := fun hm => hpi (List.mem_append_right _ hm)
    have hwsV : ∀ c, V.getLast? = some c → jsWS c = false := fun c hc =>
      hws c (by rw [List.getLast?_append_of_ne_nil _ hVne]; exact hc)
    have hXne : (("https://".data) ++ V) ≠ [] := fun hh =>
      List.noConfusion (show ('h' :: ('t' :: ("tps://".data ++ V))) = ([] : Str) from hh)
    have hvs := validateAndSplit_post_https V hVne hpiV hwsV
    unfold parseReqline
    rw [show (("[HTTP ".data) ++ ("POST".data) ++ (" | URL ".data) ++
              (("https://".data) ++ V) ++ ("]".data)) =
          ('[' :: (('H' :: 'T' :: 'T' :: 'P' :: ' ' :: 'P' :: 'O' :: 'S' :: 'T' :: ' ' :: '|' :: ' ' :: 'U' :: 'R' :: 'L' :: ' ' :: 'h' :: 't' :: 't' :: 'p' :: 's' :: ':' :: '/' :: '/' :: V) ++ [']'])) from rfl]
    rw [hvs]
    show parseAfterSplit (("HTTP POST".data))
        ((("URL ".data) ++ (("https://".data) ++ V))) [] =
      .ok (("POST".data), ⟨.obj .nil, .obj .nil, .obj .nil, ("https://".data) ++ V⟩)
    unfold parseAfterSplit
    rw [if_neg (by decide)]
    rw [if_neg (by
      intro hor
      rcases hor with h1 | h2
      · exact absurd (show ('U' :: ('R' :: 'L' :: ' ' :: (("https://".data) ++ V))) =
            ([] : Str) from h1) (by simp)
      · rw [trim_url_concat _ hXne hws] at h2
        exact h2 (prefixOf_append _ _))]
    rw [show parseHttpPart (("HTTP POST".data)) = .ok (("POST".data)) from rfl]
    rw [parseUrlPart_ok (("https://".data) ++ V) hXne hws hsp (Or.inr h) hlen]
    rfl

/-
Claim theorems.
-/

/-- C1 counterexample: the url value https://a b.com satisfies every
condition of the claim (scheme prefixed, length over 8), the input has
exactly the claimed shape, yet the compiler fails with
MULTIPLE_SPACES_FOUND instead of succeeding. -/
theorem c1_counterexample :
    (("[HTTP GET | URL https://a b.com]".data) =
      ("[HTTP ".data) ++ ("GET".data) ++ (" | URL ".data) ++
      ("https://a b.com".data) ++ ("]".data)) ∧
    List.isPrefixOf ("https://".data) (("https://a b.com".data)) = true ∧
    8 < (("https://a b.com".data)).length ∧
    parseReqline (("[HTTP GET | URL https://a b.com]".data)) =
      .error ⟨.MULTIPLE_SPACES_FOUND, 400⟩ :=
  ⟨rfl, rfl, by decide, rfl⟩

/-- C1 (amended): for every input `[HTTP M | URL U]` with M one of GET and
POST and U scheme-prefixed, longer than 8, containing no space and no pipe
character, and not ending in whitespace, the compiler succeeds and returns
a request with empty query, body and headers and fullUrl = U. -/
theorem c1_simple_form_ok (M U : Str)
    (hM : M = ("GET".data) ∨ M = ("POST".data))
    (hsch : List.isPrefixOf ("http://".data) U = true ∨
            List.isPrefixOf ("https://".data) U = true)
    (hlen : 8 < U.length)
    (hsp : ' ' ∉ U) (hpi : '|' ∉ U)
    (hws : ∀ c, U.getLast? = some c → jsWS c = false) :
    parseReqline (("[HTTP ".data) ++ M ++ (" | URL ".data) ++ U ++ ("]".data)) =
      .ok (M, ⟨.obj .nil, .obj .nil, .obj .nil, U⟩) :=
  simple_reqline_ok M U hM hsch hlen hsp hpi hws

/-- C1 witness: the amended theorem applied at POST and https://x.dev/a. -/
theorem c1_simple_form_ok_witness :
    parseReqline (("[HTTP ".data) ++ ("POST".data) ++ (" | URL ".data) ++
        ("https://x.dev/a".data) ++ ("]".data)) =
      .ok (("POST".data), ⟨.obj .nil, .obj .nil, .obj .nil, ("https://x.dev/a".data)⟩) :=
  c1_simple_form_ok ("POST".data) ("https://x.dev/a".data) (Or.inr rfl) (Or.inr rfl)
    (by decide) (by decide) (by decide)
    (by
      intro c hc
      rw [show (("https://x.dev/a".data)).getLast? = some 'a' from rfl] at hc
      simp at hc
      subst hc
      rfl)

/-- C10: query-string keys are inserted verbatim while values go through
encodeURIComponent, so a key containing a space yields a fullUrl with an
unencoded space even though the url value itself contains none. -/
theorem c10_query_key_verbatim :
    parseReqline (("[HTTP GET | URL https://a.com/x | QUERY \x7b\"a b\":\"c\"\x7d]").data) =
      .ok (("GET".data),
        ⟨.obj (.cons ("a b".data) (.str ("c".data)) .nil), .obj .nil, .obj .nil,
         ("https://a.com/x?a b=c".data)⟩) ∧
    ' ' ∈ ("https://a.com/x?a b=c".data) ∧
    ' ' ∉ ("https://a.com/x".data) ∧
    ("https://a.com/x?a b=c".data) =
      ("https://a.com/x".data) ++ '?' ::
        (("a b".data) ++ '=' :: encodeURIComponent (jsToString (.str ("c".data)))) :=
  ⟨rfl, by decide, by decide, rfl⟩

/-- C3 counterexample: a HEADERS value that parses as JSON null (not an
object) is accepted by the compiler and assigned to headers, because JS
typeof null is the string object; the claim demands InvalidHeadersJson. -/
theorem c3_counterexample :
    jsonParse (("null".data)) = some .null ∧
    parseReqline (("[HTTP GET | URL https://a.com/x | HEADERS null]").data) =
      .ok (("GET".data), ⟨.obj .nil, .obj .nil, .null, ("https://a.com/x".data)⟩) :=
  ⟨rfl, rfl⟩

/-- C6 counterexample: the trailing sections contain QUERY twice, but the
first QUERY section fails JSON decoding before the duplicate is reached, so
the compiler reports the generic invalid-JSON error, not DuplicateSection. -/
theorem c6_counterexample :
    parseReqline
        (("[HTTP GET | URL https://a.com/x | QUERY x | QUERY \x7b\"a\":\"1\"\x7d]").data) =
      .error ⟨.invalidJsonFormatIn ("QUERY".data), 400⟩ ∧
    ErrMsg.invalidJsonFormatIn ("QUERY".data) ≠ ErrMsg.DUPLICATE_SECTION :=
  ⟨rfl, by decide⟩

/-- C7 counterexample: a successful parse whose query key contains a space
produces a fullUrl with a space, and re-parsing `[HTTP GET | URL fullUrl]`
fails with MULTIPLE_SPACES_FOUND instead of succeeding. -/
theorem c7_counterexample :
    parseReqline (("[HTTP GET | URL https://e.org/x | QUERY \x7b\"a b\":\"c\"\x7d]").data) =
      .ok (("GET".data),
        ⟨.obj (.cons ("a b".data) (.str ("c".data)) .nil), .obj .nil, .obj .nil,
         ("https://e.org/x?a b=c".data)⟩) ∧
    parseReqline (("[HTTP GET | URL ".data) ++ ("https://e.org/x?a b=c".data) ++ ("]".data)) =
      .error ⟨.MULTIPLE_SPACES_FOUND, 400⟩ :=
  ⟨rfl, rfl⟩

lemma processPart_decoded (seen : List Str) (req : Request) (p k v : Str)
    (h : decodeKw p = .ok (k, v)) :
    processPart seen req p =
      if k ∈ seen then err400 .DUPLICATE_SECTION
      else
        match decodeVal k v with
        | .error e => .error e
        | .ok j => .ok (k :: seen, applyUpd req k j) := by
  unfold processPart
  rw [h]

lemma decodeVal_parsed (kw v : Str) (j : JsonVal)
    (h3 : ¬ (v = [] ∨ trim v = [])) (h4 : jsonParse v = some j) :
    decodeVal kw v =
      (if kw = ("HEADERS".data) then
        (if jsNotObjectType j then err400 .INVALID_JSON_FORMAT_HEADERS else .ok j)
      else if kw = ("QUERY".data) then
        (if jsNotObjectType j then err400 .INVALID_JSON_FORMAT_QUERY
         else
           match j with
           | .obj props => .ok (.obj props)
           | _ => err400 (.invalidJsonFormatIn kw))
      else .ok j) := by
  unfold decodeVal
  rw [if_neg h3]
  simp only [h4]
  cases j <;> rfl

lemma processRest_append (seen : List Str) (req : Request) (l₁ l₂ : List Str) :
    processRest seen req (l₁ ++ l₂) =
      match processRest seen req l₁ with
      | .error e => .error e
      | .ok (s', r') => processRest s' r' l₂ := by
  induction l₁ generalizing seen req with
  | nil => rfl
  | cons p ps ih =>
    simp only [List.cons_append, processRest]
    cases hp : processPart seen req p with
    | error e => rfl
    | ok sr => exact ih sr.1 sr.2

/-- C3 (amended): a HEADERS or QUERY value decoding to an array or a
non-null scalar yields the dedicated invalid-JSON-object error; a null
value instead passes the typeof check, so HEADERS null is accepted and
assigned, while QUERY null fails later (Object.entries throws) with the
generic invalid-JSON-format error naming QUERY. -/
theorem c3_json_object_checks :
    (∀ seen req p v j, decodeKw p = .ok (("HEADERS".data), v) → ("HEADERS".data) ∉ seen →
      ¬ (v = [] ∨ trim v = []) → jsonParse v = some j → jsNotObjectType j = true →
      processPart seen req p = err400 .INVALID_JSON_FORMAT_HEADERS) ∧
    (∀ seen req p v j, decodeKw p = .ok (("QUERY".data), v) → ("QUERY".data) ∉ seen →
      ¬ (v = [] ∨ trim v = []) → jsonParse v = some j → jsNotObjectType j = true →
      processPart seen req p = err400 .INVALID_JSON_FORMAT_QUERY) ∧
    (∀ seen req p v, decodeKw p = .ok (("HEADERS".data), v) → ("HEADERS".data) ∉ seen →
      ¬ (v = [] ∨ trim v = []) → jsonParse v = some .null →
      processPart seen req p = .ok ((("HEADERS".data)) :: seen, { req with headers := .null })) ∧
    (∀ seen req p v, decodeKw p = .ok (("QUERY".data), v) → ("QUERY".data) ∉ seen →
      ¬ (v = [] ∨ trim v = []) → jsonParse v = some .null →
      processPart seen req p = err400 (.invalidJsonFormatIn (("QUERY".data)))) := by
  refine ⟨?_, ?_, ?_, ?_⟩
  · intro seen req p v j h1 h2 h3 h4 h5
    rw [processPart_decoded _ _ _ _ _ h1, if_neg h2, decodeVal_parsed _ _ _ h3 h4,
        if_pos rfl, h5, if_pos rfl]
    rfl
  · intro seen req p v j h1 h2 h3 h4 h5
    rw [processPart_decoded _ _ _ _ _ h1, if_neg h2, decodeVal_parsed _ _ _ h3 h4,
        if_neg (by decide), if_pos rfl, h5, if_pos rfl]
    rfl
  · intro seen req p v h1 h2 h3 h4
    rw [processPart_decoded _ _ _ _ _ h1, if_neg h2, decodeVal_parsed _ _ _ h3 h4,
        if_pos rfl, if_neg (by decide)]
    rfl
  · intro seen req p v h1 h2 h3 h4
    rw [processPart_decoded _ _ _ _ _ h1, if_neg h2, decodeVal_parsed _ _ _ h3 h4,
        if_neg (by decide), if_pos rfl, if_neg (by decide)]
    rfl

/-- C3 witness: the four cases of the amended claim at concrete sections. -/
theorem c3_json_object_checks_witness :
    processPart [] ⟨.obj .nil, .obj .nil, .obj .nil, ("https://a.com/x".data)⟩
        (("HEADERS [1,2]".data)) = err400 .INVALID_JSON_FORMAT_HEADERS ∧
    processPart [] ⟨.obj .nil, .obj .nil, .obj .nil, ("https://a.com/x".data)⟩
        (("QUERY 5".data)) = err400 .INVALID_JSON_FORMAT_QUERY ∧
    processPart [] ⟨.obj .nil, .obj .nil, .obj .nil, ("https://a.com/x".data)⟩
        (("HEADERS null".data)) =
      .ok ([("HEADERS".data)],
           ⟨.obj .nil, .obj .nil, .null, ("https://a.com/x".data)⟩) ∧
    processPart [] ⟨.obj .nil, .obj .nil, .obj .nil, ("https://a.com/x".data)⟩
        (("QUERY null".data)) = err400 (.invalidJsonFormatIn (("QUERY".data))) :=
  ⟨c3_json_object_checks.1 [] _ _ (("[1,2]".data)) (.arr (.cons (.num 1) (.cons (.num 2) .nil)))
     rfl (by simp) (by decide) rfl rfl,
   c3_json_object_checks.2.1 [] _ _ (("5".data)) (.num 5) rfl (by simp) (by decide) rfl rfl,
   c3_json_object_checks.2.2.1 [] _ _ (("null".data)) rfl (by simp) (by decide) rfl,
   c3_json_object_checks.2.2.2 [] _ _ (("null".data)) rfl (by simp) (by decide) rfl⟩

/-- C6 (amended): whenever every trailing section before the second
occurrence of a keyword processes without error and the second occurrence
passes its keyword-level checks with that same keyword, the compiler fails
with DUPLICATE_SECTION, wherever in the trailing-section list the two
occurrences sit. -/
theorem c6_duplicate_section (k : Str) (req req₁ : Request)
    (pre tail : List Str) (seen₁ : List Str) (p v : Str)
    (hpre : processRest [] req pre = .ok (seen₁, req₁))
    (hk : k ∈ seen₁)
    (hkw : decodeKw p = .ok (k, v)) :
    processRest [] req (pre ++ p :: tail) = err400 .DUPLICATE_SECTION := by
  rw [processRest_append, hpre]
  show processRest seen₁ req₁ (p :: tail) = _
  simp only [processRest]
  rw [processPart_decoded _ _ _ _ _ hkw, if_pos hk]
  rfl

/-- C6 witness: the amended theorem at a concrete duplicate QUERY pair. -/
theorem c6_duplicate_section_witness :
    processRest [] ⟨.obj .nil, .obj .nil, .obj .nil, ("https://a.com/x".data)⟩
        ([("QUERY \x7b\"a\":\"1\"\x7d".data)] ++ ("QUERY \x7b\"b\":\"2\"\x7d".data) :: []) =
      err400 .DUPLICATE_SECTION :=
  c6_duplicate_section ("QUERY".data)
    ⟨.obj .nil, .obj .nil, .obj .nil, ("https://a.com/x".data)⟩
    ⟨.obj (.cons ("a".data) (.str ("1".data)) .nil), .obj .nil, .obj .nil,
     ("https://a.com/x?a=1".data)⟩
    [("QUERY \x7b\"a\":\"1\"\x7d".data)] [] [("QUERY".data)]
    (("QUERY \x7b\"b\":\"2\"\x7d".data)) (("\x7b\"b\":\"2\"\x7d".data))
    rfl (by simp) rfl

lemma lastOr_none (l : Str) : lastOr l none = l.getLast? := by
  cases hg : l.getLast? <;> simp [lastOr, hg]

lemma lastOr_cons (c : Char) (cs : Str) (d : Option Char) :
    lastOr (c :: cs) d = lastOr cs (some c) := by
  cases cs with
  | nil => rfl
  | cons e es =>
    cases hg : (e :: es).getLast? with
    | none => exact absurd hg (by simp)
    | some x => simp [lastOr, List.getLast?_cons_cons, hg]

lemma penultOr_cons (c : Char) (cs : Str) (p2 p1 : Option Char) :
    penultOr (c :: cs) p2 p1 = penultOr cs p1 (some c) := by
  cases cs with
  | nil => rfl
  | cons e es =>
    show lastOr ((c :: e :: es).dropLast) (if (c :: e :: es) = [] then p2 else p1) =
         lastOr ((e :: es).dropLast) (if (e :: es) = [] then p1 else some c)
    rw [show (c :: e :: es).dropLast = c :: (e :: es).dropLast from rfl]
    rw [lastOr_cons, if_neg (by simp)]

lemma pipeScanBad_at : ∀ (pre post : Str) (p2 p1 : Option Char),
    (lastOr pre p1 ≠ some ' ' ∨ post.head? ≠ some ' ' ∨ penultOr pre p2 p1 = some ' ' ∨
     post.tail.head? = some ' ') →
    pipeScanBad p2 p1 (pre ++ '|' :: post) = true := by
  intro pre
  induction pre with
  | nil =>
    intro post p2 p1 hbad
    show pipeScanBad p2 p1 ('|' :: post) = true
    simp only [pipeScanBad]
    rw [if_pos ⟨by trivial, hbad⟩]
  | cons c cs ih =>
    intro post p2 p1 hbad
    show pipeScanBad p2 p1 (c :: (cs ++ '|' :: post)) = true
    simp only [pipeScanBad]
    by_cases hc : c = '|' ∧ (p1 ≠ some ' ' ∨ (cs ++ '|' :: post).head? ≠ some ' ' ∨
        p2 = some ' ' ∨ (cs ++ '|' :: post).tail.head? = some ' ')
    · rw [if_pos hc]
    · rw [if_neg hc]
      apply ih post p1 (some c)
      rw [← lastOr_cons c cs p1, ← penultOr_cons c cs p2 p1]
      exact hbad

lemma validateAndSplit_pipe_err {s : Str}
    (hb : s.head? = some '[') (he : s.getLast? = some ']')
    (hscan : pipeScanBad none none (trim ((s.drop 1).dropLast)) = true) :
    validateAndSplit s = err400 .INVALID_SPACING_AROUND_PIPE := by
  have hsne : s ≠ [] := by
    intro h
    rw [h] at hb
    exact Option.noConfusion hb
  unfold validateAndSplit
  rw [if_neg hsne]
  rw [if_neg (not_not_intro ⟨hb, he⟩)]
  have hcne : trim ((s.drop 1).dropLast) ≠ [] := by
    intro hc
    rw [hc] at hscan
    exact Bool.noConfusion hscan
  rw [if_neg hcne]
  by_cases h1 : hasTriple ' ' ' ' '|' (trim ((s.drop 1).dropLast)) = true
  · rw [if_pos h1]
  · rw [if_neg h1]
    by_cases h2 : hasTriple '|' ' ' ' ' (trim ((s.drop 1).dropLast)) = true
    · rw [if_pos h2]
    · rw [if_neg h2, if_pos hscan]

/-- C5: for every bracket-wrapped input whose trimmed interior contains a
pipe with zero spaces on a side (adjacent character absent or not a space)
or two or more spaces on a side (both adjacent characters on that side are
spaces), the compiler fails with INVALID_SPACING_AROUND_PIPE; in
particular no section-splitting error such as too-few-sections is ever
reported for such an input. -/
theorem c5_pipe_spacing_precedence (s pre post : Str)
    (hb : s.head? = some '[') (he : s.getLast? = some ']')
    (hsplit : trim ((s.drop 1).dropLast) = pre ++ '|' :: post)
    (hbad : (pre.getLast? ≠ some ' ' ∨ post.head? ≠ some ' ') ∨
            (pre.dropLast.getLast? = some ' ' ∧ pre.getLast? = some ' ') ∨
            (post.head? = some ' ' ∧ post.tail.head? = some ' ')) :
    parseReqline s = .error ⟨.INVALID_SPACING_AROUND_PIPE, 400⟩ := by
  have hpen : penultOr pre none none = pre.dropLast.getLast? := by
    unfold penultOr
    rw [ite_self, lastOr_none]
  have hscan : pipeScanBad none none (trim ((s.drop 1).dropLast)) = true := by
    rw [hsplit]
    apply pipeScanBad_at
    rcases hbad with (h | h) | ⟨hp2, _⟩ | ⟨_, ht⟩
    · exact Or.inl (by rw [lastOr_none]; exact h)
    · exact Or.inr (Or.inl h)
    · exact Or.inr (Or.inr (Or.inl (by rw [hpen]; exact hp2)))
    · exact Or.inr (Or.inr (Or.inr ht))
  unfold parseReqline
  rw [validateAndSplit_pipe_err hb he hscan]
  rfl

/-- C5 witness: a pipe with no surrounding spaces is reported as a spacing
error even though the input would also fail section splitting. -/
theorem c5_pipe_spacing_precedence_witness :
    parseReqline (("[HTTP GET|URL https://x]".data)) =
      .error ⟨.INVALID_SPACING_AROUND_PIPE, 400⟩ :=
  c5_pipe_spacing_precedence (("[HTTP GET|URL https://x]".data))
    (("HTTP GET".data)) (("URL https://x".data)) rfl (by decide) rfl
    (Or.inl (Or.inl (by decide)))

lemma vsp_err_facts {s : Str} {e : AppError} (h : validateAndSplit s = .error e) :
    e.status = 400 ∧ e.msg ≠ .MISSING_HTTP_KEYWORD ∧ e.msg ≠ .MISSING_URL_KEYWORD := by
  unfold validateAndSplit at h
  repeat' split at h
  all_goals simp [err400] at h
  all_goals (subst h; exact ⟨rfl, by simp, by simp⟩)

lemma parseHttpPart_err_facts {p : Str} {e : AppError} (h : parseHttpPart p = .error e) :
    e.status = 400 ∧ e.msg ≠ .MISSING_URL_KEYWORD ∧
    (e.msg = .MISSING_HTTP_KEYWORD →
      ∃ i, indexOfChar ' ' (trim p) = some i ∧ (trim p).take i ≠ ("HTTP".data)) := by
  unfold parseHttpPart at h
  repeat' split at h
  all_goals simp [err400] at h
  all_goals subst h
  all_goals refine ⟨rfl, by simp, fun hm => ?_⟩
  all_goals first
    | exact ⟨_, by assumption, by assumption⟩
    | exact absurd hm (by simp)

lemma parseUrlPart_err_facts {p : Str} {e : AppError} (h : parseUrlPart p = .error e) :
    e.status = 400 ∧ e.msg ≠ .MISSING_HTTP_KEYWORD ∧
    (e.msg = .MISSING_URL_KEYWORD →
      ∃ i, indexOfChar ' ' (trim p) = some i ∧ (trim p).take i ≠ ("URL".data)) := by
  unfold parseUrlPart at h
  repeat' split at h
  all_goals simp [err400] at h
  all_goals subst h
  all_goals refine ⟨rfl, by simp, fun hm => ?_⟩
  all_goals first
    | exact ⟨_, by assumption, by assumption⟩
    | exact absurd hm (by simp)

lemma decodeKw_err_facts {p : Str} {e : AppError} (h : decodeKw p = .error e) :
    e.status = 400 ∧ e.msg ≠ .MISSING_HTTP_KEYWORD ∧ e.msg ≠ .MISSING_URL_KEYWORD := by
  unfold decodeKw at h
  repeat' split at h
  all_goals simp [err400] at h
  all_goals (subst h; exact ⟨rfl, by simp, by simp⟩)

lemma decodeVal_err_facts {kw v : Str} {e : AppError} (h : decodeVal kw v = .error e) :
    e.status = 400 ∧ e.msg ≠ .MISSING_HTTP_KEYWORD ∧ e.msg ≠ .MISSING_URL_KEYWORD := by
  unfold decodeVal at h
  repeat' split at h
  all_goals simp [err400] at h
  all_goals (subst h; exact ⟨rfl, by simp, by simp⟩)

lemma processPart_err_facts {seen : List Str} {req : Request} {p : Str} {e : AppError}
    (h : processPart seen req p = .error e) :
    e.status = 400 ∧ e.msg ≠ .MISSING_HTTP_KEYWORD ∧ e.msg ≠ .MISSING_URL_KEYWORD := by
  unfold processPart at h
  repeat' split at h
  all_goals first
    | (simp [err400] at h; subst h; exact ⟨rfl, by simp, by simp⟩)
    | (simp at h; done)
    | (simp at h; subst h
       first
         | exact decodeKw_err_facts (by assumption)
         | exact decodeVal_err_facts (by assumption))

lemma processRest_err_facts : ∀ {rest : List Str} {seen : List Str} {req : Request}
    {e : AppError}, processRest seen req rest = .error e →
    e.status = 400 ∧ e.msg ≠ .MISSING_HTTP_KEYWORD ∧ e.msg ≠ .MISSING_URL_KEYWORD := by
  intro rest
  induction rest with
  | nil =>
    intro seen req e h
    exact absurd h (by simp [processRest])
  | cons p ps ih =>
    intro seen req e h
    simp only [processRest] at h
    split at h
    · rename_i e' heq
      simp at h
      subst h
      exact processPart_err_facts heq
    · exact ih h

lemma parseAfterSplit_err_facts {hp up : Str} {rest : List Str} {e : AppError}
    (h : parseAfterSplit hp up rest = .error e) :
    e.status = 400 ∧ e.msg ≠ .MISSING_HTTP_KEYWORD ∧ e.msg ≠ .MISSING_URL_KEYWORD := by
  unfold parseAfterSplit at h
  split at h
  · simp [err400] at h
    subst h
    exact ⟨rfl, by simp, by simp⟩
  · rename_i hg1
    split at h
    · simp [err400] at h
      subst h
      exact ⟨rfl, by simp, by simp⟩
    · rename_i hg2
      split at h
      · rename_i e' heq
        simp at h
        subst h
        obtain ⟨hst, hu, hcond⟩ := parseHttpPart_err_facts heq
        refine ⟨hst, fun hm => ?_, hu⟩
        obtain ⟨i, hidx, htake⟩ := hcond hm
        have hpre : List.isPrefixOf ("HTTP ".data) (trim hp) = true :=
          not_not.mp (not_or.mp hg1).2
        obtain ⟨t, ht⟩ := prefixOf_exists hpre
        rw [ht] at hidx htake
        have hi : i = 4 :=
          (Option.some.inj (by rw [← hidx]; rfl)).symm
        rw [hi] at htake
        exact htake (by rw [show (("HTTP ".data) ++ t).take 4 = ("HTTP".data) from rfl])
      · split at h
        · rename_i e' heq
          simp at h
          subst h
          obtain ⟨hst, hh, hcond⟩ := parseUrlPart_err_facts heq
          refine ⟨hst, hh, fun hm => ?_⟩
          obtain ⟨i, hidx, htake⟩ := hcond hm
          have hpre : List.isPrefixOf ("URL ".data) (trim up) = true :=
            not_not.mp (not_or.mp hg2).2
          obtain ⟨t, ht⟩ := prefixOf_exists hpre
          rw [ht] at hidx htake
          have hi : i = 3 :=
            (Option.some.inj (by rw [← hidx]; rfl)).symm
          rw [hi] at htake
          exact htake (by rw [show (("URL ".data) ++ t).take 3 = ("URL".data) from rfl])
        · split at h
          · rename_i e' heq
            simp at h
            subst h
            exact processRest_err_facts heq
          · simp at h

lemma parseReqline_err_facts {s : Str} {e : AppError} (h : parseReqline s = .error e) :
    e.status = 400 ∧ e.msg ≠ .MISSING_HTTP_KEYWORD ∧ e.msg ≠ .MISSING_URL_KEYWORD := by
  unfold parseReqline at h
  split at h
  · rename_i e' heq
    simp at h
    subst h
    exact vsp_err_facts heq
  · exact parseAfterSplit_err_facts h

/-- C9: the MISSING_HTTP_KEYWORD and MISSING_URL_KEYWORD branches are
unreachable: whatever the input, a failing parse never carries either
message, because the keyword extracted after the startsWith HTTP-space
(respectively URL-space) guard is always the guarded keyword itself. -/
theorem c9_missing_keyword_unreachable (s : Str) (e : AppError)
    (h : parseReqline s = .error e) :
    e.msg ≠ .MISSING_HTTP_KEYWORD ∧ e.msg ≠ .MISSING_URL_KEYWORD :=
  ⟨(parseReqline_err_facts h).2.1, (parseReqline_err_facts h).2.2⟩

/-- C9 witness: the theorem applied to the empty input, which fails with
MISSING_REQLINE. -/
theorem c9_missing_keyword_unreachable_witness :
    parseReqline ([] : Str) = .error ⟨.MISSING_REQLINE, 400⟩ ∧
    (AppError.mk .MISSING_REQLINE 400).msg ≠ .MISSING_HTTP_KEYWORD ∧
    (AppError.mk .MISSING_REQLINE 400).msg ≠ .MISSING_URL_KEYWORD :=
  ⟨rfl, c9_missing_keyword_unreachable [] ⟨.MISSING_REQLINE, 400⟩ rfl⟩

/-- C8: every error of the validation and building phase carries status
400; a transport rejection is rethrown with the upstream response status
when present and 500 otherwise; and a transport call resolving with any
status, 404 included, surfaces that status as httpStatus in the success
structure. -/
theorem c8_status_codes :
    (∀ (s : Str) (e : AppError), parseReqline s = .error e → e.status = 400) ∧
    (∀ (s m : Str) (r : Request) (msg : Str) (rs : Option Nat) (t0 t1 : Int),
      parseReqline s = .ok (m, r) →
      executeReqline s (.reject msg rs) t0 t1 =
        .error ⟨.transportMsg msg, match rs with
                                   | some c => c
                                   | none => 500⟩) ∧
    (∀ (s m : Str) (r : Request) (st : Nat) (d : JsonVal) (t0 t1 : Int),
      parseReqline s = .ok (m, r) →
      executeReqline s (.resolve st d) t0 t1 = .ok ⟨r, ⟨st, t1 - t0, t0, t1, d⟩⟩) := by
  refine ⟨fun s e h => (parseReqline_err_facts h).1, ?_, ?_⟩
  · intro s m r msg rs t0 t1 hok
    unfold executeReqline
    rw [hok]
  · intro s m r st d t0 t1 hok
    unfold executeReqline
    rw [hok]

/-- C8 witness: a grammar error with status 400, a transport rejection
carrying the upstream 404 and the 500 default, and a resolved 404 call
surfacing httpStatus 404. -/
theorem c8_status_codes_witness :
    (parseReqline (("[]".data)) = .error ⟨.INVALID_SYNTAX, 400⟩ ∧
     (AppError.mk .INVALID_SYNTAX 400).status = 400) ∧
    executeReqline (("[HTTP GET | URL https://a.com/x]".data))
        (.reject (("boom".data)) (some 404)) 10 25 =
      .error ⟨.transportMsg (("boom".data)), 404⟩ ∧
    executeReqline (("[HTTP GET | URL https://a.com/x]".data))
        (.reject (("boom".data)) none) 10 25 =
      .error ⟨.transportMsg (("boom".data)), 500⟩ ∧
    executeReqline (("[HTTP GET | URL https://a.com/x]".data))
        (.resolve 404 .null) 10 25 =
      .ok ⟨⟨.obj .nil, .obj .nil, .obj .nil, ("https://a.com/x".data)⟩,
           ⟨404, 15, 10, 25, .null⟩⟩ :=
  ⟨⟨rfl, c8_status_codes.1 (("[]".data)) ⟨.INVALID_SYNTAX, 400⟩ rfl⟩,
   c8_status_codes.2.1 _ (("GET".data))
     ⟨.obj .nil, .obj .nil, .obj .nil, ("https://a.com/x".data)⟩
     (("boom".data)) (some 404) 10 25 rfl,
   c8_status_codes.2.1 _ (("GET".data))
     ⟨.obj .nil, .obj .nil, .obj .nil, ("https://a.com/x".data)⟩
     (("boom".data)) none 10 25 rfl,
   c8_status_codes.2.2 _ (("GET".data))
     ⟨.obj .nil, .obj .nil, .obj .nil, ("https://a.com/x".data)⟩
     404 .null 10 25 rfl⟩

lemma kwOf_eq {p k : Str} {j : JsonVal} (h : decodePart p = .ok (k, j)) : kwOf p = k := by
  unfold kwOf
  rw [h]

lemma applyUpd_headers_eq (req : Request) (j : JsonVal) :
    applyUpd req ("HEADERS".data) j = { req with headers := j } := by
  unfold applyUpd
  rw [if_pos rfl]

lemma applyUpd_body_eq (req : Request) (j : JsonVal) :
    applyUpd req ("BODY".data) j = { req with body := j } := by
  unfold applyUpd
  rw [if_neg (by decide), if_neg (by decide)]

lemma applyUpd_query_eq (req : Request) (props : JsonProps) :
    applyUpd req ("QUERY".data) (.obj props) =
      ⟨.obj props, req.body, req.headers,
       (if queryStringOf (propsToList props) = [] then req.fullUrl
        else req.fullUrl ++
          (if req.fullUrl.contains '?' then
             '&' :: queryStringOf (propsToList props)
           else '?' :: queryStringOf (propsToList props)))⟩ := by
  unfold applyUpd
  rw [if_neg (by decide), if_pos rfl]
  by_cases hq : queryStringOf (propsToList props) = [] <;> simp [hq]

lemma processPart_ok_elim {seen : List Str} {req : Request} {p : Str}
    {out : List Str × Request} (h : processPart seen req p = .ok out) :
    ∃ k j, decodePart p = .ok (k, j) ∧ k ∉ seen ∧
      out = (k :: seen, applyUpd req k j) := by
  unfold processPart at h
  split at h
  · exact absurd h (by simp)
  · rename_i k v heq
    split at h
    · exact absurd h (by simp [err400])
    · rename_i hnotin
      split at h
      · exact absurd h (by simp)
      · rename_i j heq2
        simp at h
        refine ⟨k, j, ?_, hnotin, h.symm⟩
        unfold decodePart
        rw [heq]
        show (match decodeVal k v with
              | Except.error e => Except.error e
              | Except.ok j' => Except.ok (k, j')) = Except.ok (k, j)
        rw [heq2]

lemma decodeKw_ok_kw {p k v : Str} (h : decodeKw p = .ok (k, v)) :
    k = ("HEADERS".data) ∨ k = ("QUERY".data) ∨ k = ("BODY".data) := by
  unfold decodeKw at h
  repeat' split at h
  all_goals simp [err400] at h
  rename_i hcond
  obtain ⟨hk, _⟩ := h
  rcases not_and_or.mp hcond with h1 | h23
  · exact Or.inl (by rw [← hk]; exact not_not.mp h1)
  · rcases not_and_or.mp h23 with h2 | h3
    · exact Or.inr (Or.inl (by rw [← hk]; exact not_not.mp h2))
    · exact Or.inr (Or.inr (by rw [← hk]; exact not_not.mp h3))

lemma decodeVal_ok_query {v : Str} {j : JsonVal}
    (h : decodeVal (("QUERY".data)) v = .ok j) : ∃ props, j = .obj props := by
  unfold decodeVal at h
  split at h
  · repeat' split at h
    all_goals exact absurd h (by simp [err400])
  · split at h
    · exact absurd h (by simp [err400])
    · rw [if_neg (by decide), if_pos rfl] at h
      split at h
      · exact absurd h (by simp [err400])
      · split at h
        · simp at h
          first
            | exact ⟨_, h.symm⟩
            | exact ⟨_, h⟩
        · exact absurd h (by simp [err400])

lemma decodePart_ok_kw {p k : Str} {j : JsonVal} (h : decodePart p = .ok (k, j)) :
    (k = ("HEADERS".data) ∨ k = ("QUERY".data) ∨ k = ("BODY".data)) ∧
    (k = ("QUERY".data) → ∃ props, j = .obj props) := by
  unfold decodePart at h
  split at h
  · exact absurd h (by simp)
  · rename_i k' v heq
    split at h
    · exact absurd h (by simp)
    · rename_i j' heq2
      simp at h
      obtain ⟨hk, hj⟩ := h
      subst hk
      subst hj
      exact ⟨decodeKw_ok_kw heq, fun hq => decodeVal_ok_query (hq ▸ heq2)⟩

lemma findDecoded_cons_some {p : Str} {ps : List Str} {k : Str} {j : JsonVal}
    (h : decodePart p = .ok (k, j)) : findDecoded k (p :: ps) = some j := by
  simp [findDecoded, h]

lemma findDecoded_cons_ne {p : Str} {ps : List Str} {k : Str} (hne : kwOf p ≠ k) :
    findDecoded k (p :: ps) = findDecoded k ps := by
  cases hd : decodePart p with
  | error e => simp [findDecoded, hd]
  | ok kj =>
    cases kj with
    | mk k' j =>
      have hkk : ¬ k' = k := fun he => hne (by rw [kwOf_eq hd, he])
      simp [findDecoded, hd, hkk]

lemma findDecoded_none {k : Str} : ∀ {ps : List Str}, (∀ p ∈ ps, kwOf p ≠ k) →
    findDecoded k ps = none := by
  intro ps
  induction ps with
  | nil => intro _; rfl
  | cons p ps ih =>
    intro h
    rw [findDecoded_cons_ne (h p (List.mem_cons_self p ps))]
    exact ih (fun q hq => h q (List.mem_cons_of_mem p hq))

lemma processRest_ok_spec : ∀ (rest : List Str) (seen : List Str) (req : Request)
    (so : List Str) (ro : Request), processRest seen req rest = .ok (so, ro) →
    (∀ p ∈ rest, kwOf p ∉ seen) ∧
    ((rest.map kwOf).Nodup ∧ ∀ p ∈ rest, ∃ k j, decodePart p = .ok (k, j)) ∧
    ro.headers = (findDecoded (("HEADERS".data)) rest).getD req.headers ∧
    ro.body = (findDecoded (("BODY".data)) rest).getD req.body ∧
    ro.query = (findDecoded (("QUERY".data)) rest).getD req.query ∧
    ro.fullUrl =
      (match findDecoded (("QUERY".data)) rest with
       | some (.obj props) =>
         (if queryStringOf (propsToList props) = [] then req.fullUrl
          else req.fullUrl ++
            (if req.fullUrl.contains '?' then '&' :: queryStringOf (propsToList props)
             else '?' :: queryStringOf (propsToList props)))
       | _ => req.fullUrl) := by
  intro rest
  induction rest with
  | nil =>
    intro seen req so ro h
    simp only [processRest] at h
    obtain ⟨hs, hr⟩ : seen = so ∧ req = ro := by simpa using h
    subst hs
    subst hr
    exact ⟨by simp, ⟨by simp, by simp⟩, rfl, rfl, rfl, rfl⟩
  | cons p ps ih =>
    intro seen req so ro h
    simp only [processRest] at h
    split at h
    · exact absurd h (by simp)
    · rename_i s1 r1 heq
      obtain ⟨k, j, hdec, hnotin, hout⟩ := processPart_ok_elim heq
      rw [Prod.mk.injEq] at hout
      obtain ⟨hs1, hr1⟩ := hout
      subst hs1
      subst hr1
      obtain ⟨hA, ⟨hB, hC⟩, hH, hBo, hQ, hF⟩ := ih (k :: seen) (applyUpd req k j) so ro h
      have hkw : kwOf p = k := kwOf_eq hdec
      have hA' : ∀ q ∈ p :: ps, kwOf q ∉ seen := by
        intro q hq
        rcases List.mem_cons.mp hq with rfl | hq'
        · rw [hkw]; exact hnotin
        · exact fun hin => hA q hq' (List.mem_cons_of_mem k hin)
      have hpsne : ∀ q ∈ ps, kwOf q ≠ k := by
        intro q hq he
        exact hA q hq (he ▸ List.mem_cons_self k seen)
      have hB' : ((p :: ps).map kwOf).Nodup := by
        rw [List.map_cons, hkw]
        exact List.nodup_cons.mpr ⟨fun hin => by
          obtain ⟨q, hq, hkq⟩ := List.mem_map.mp hin
          exact hpsne q hq hkq, hB⟩
      have hC' : ∀ q ∈ p :: ps, ∃ k' j', decodePart q = .ok (k', j') := by
        intro q hq
        rcases List.mem_cons.mp hq with rfl | hq'
        · exact ⟨k, j, hdec⟩
        · exact hC q hq'
      refine ⟨hA', ⟨hB', hC'⟩, ?_, ?_, ?_, ?_⟩
      all_goals
        obtain ⟨hk3, hkq⟩ := decodePart_ok_kw hdec
      · -- headers
        rcases hk3 with rfl | rfl | rfl
        · rw [findDecoded_cons_some hdec, hH,
              findDecoded_none (k := ("HEADERS".data)) hpsne]
          rw [applyUpd_headers_eq]
          try rfl
        · obtain ⟨props, rfl⟩ := hkq rfl
          rw [findDecoded_cons_ne (by rw [hkw]; decide), hH, applyUpd_query_eq]
          try rfl
        · rw [findDecoded_cons_ne (by rw [hkw]; decide), hH, applyUpd_body_eq]
        try rfl
      · -- body
        rcases hk3 with rfl | rfl | rfl
        · rw [findDecoded_cons_ne (by rw [hkw]; decide), hBo, applyUpd_headers_eq]
        try rfl
        · obtain ⟨props, rfl⟩ := hkq rfl
          rw [findDecoded_cons_ne (by rw [hkw]; decide), hBo, applyUpd_query_eq]
          try rfl
        · rw [findDecoded_cons_some hdec, hBo,
              findDecoded_none (k := ("BODY".data)) hpsne]
          rw [applyUpd_body_eq]
          try rfl
      · -- query
        rcases hk3 with rfl | rfl | rfl
        · rw [findDecoded_cons_ne (by rw [hkw]; decide), hQ, applyUpd_headers_eq]
        try rfl
        · obtain ⟨props, rfl⟩ := hkq rfl
          rw [findDecoded_cons_some hdec, hQ,
              findDecoded_none (k := ("QUERY".data)) hpsne]
          rw [applyUpd_query_eq]
          try rfl
        · rw [findDecoded_cons_ne (by rw [hkw]; decide), hQ, applyUpd_body_eq]
        try rfl
      · -- fullUrl
        rcases hk3 with rfl | rfl | rfl
        · rw [findDecoded_cons_ne (by rw [hkw]; decide), hF, applyUpd_headers_eq]
        try rfl
        · obtain ⟨props, rfl⟩ := hkq rfl
          rw [findDecoded_cons_some hdec, hF,
              findDecoded_none (k := ("QUERY".data)) hpsne]
          rw [applyUpd_query_eq]
          try rfl
        · rw [findDecoded_cons_ne (by rw [hkw]; decide), hF, applyUpd_body_eq]
        try rfl

lemma parseReqline_ok_elim {s m : Str} {r : Request}
    (h : parseReqline s = .ok (m, r)) :
    ∃ hp up rest u so,
      validateAndSplit s = .ok (hp, up, rest) ∧
      parseHttpPart hp = .ok m ∧
      parseUrlPart up = .ok u ∧
      processRest [] ⟨.obj .nil, .obj .nil, .obj .nil, u⟩ rest = .ok (so, r) := by
  unfold parseReqline at h
  split at h
  · exact absurd h (by simp)
  · rename_i hp up rest heq
    unfold parseAfterSplit at h
    split at h
    · exact absurd h (by simp [err400])
    · split at h
      · exact absurd h (by simp [err400])
      · split at h
        · exact absurd h (by simp)
        · rename_i method hm
          split at h
          · exact absurd h (by simp)
          · rename_i u hu
            split at h
            · exact absurd h (by simp)
            · rename_i so r' hpr
              simp at h
              obtain ⟨hm1, hr1⟩ := h
              subst hm1
              subst hr1
              exact ⟨hp, up, rest, u, so, heq, hm, hu, hpr⟩

lemma insertByKey_ne_nil (x : Str × JsonVal) (l : List (Str × JsonVal)) :
    insertByKey x l ≠ [] := by
  cases l with
  | nil => simp [insertByKey]
  | cons y ys =>
    unfold insertByKey
    split <;> simp

lemma entriesJS_ne_nil {l : List (Str × JsonVal)} (h : l ≠ []) :
    entriesJS l ≠ [] := by
  cases l with
  | nil => exact absurd rfl h
  | cons x xs =>
    unfold entriesJS
    intro hc
    rw [List.append_eq_nil] at hc
    obtain ⟨h1, h2⟩ := hc
    by_cases hx : isArrayIndexKey x.1 = true
    · simp only [List.filter_cons, hx, if_pos] at h1
      rw [sortByKey] at h1
      exact insertByKey_ne_nil x _ h1
    · simp only [List.filter_cons, hx, Bool.not_false, Bool.not_true,
        if_pos, if_neg, Bool.false_eq_true, if_false] at h2
      exact List.cons_ne_nil _ _ h2

lemma joinAmp_cons_ne_nil (x : Str × JsonVal) (xs : List (Str × JsonVal)) :
    joinAmp ((x :: xs).map pairString) ≠ [] := by
  cases xs with
  | nil => simp [joinAmp, pairString]
  | cons y ys => simp [joinAmp, pairString]

lemma queryStringOf_ne_nil {l : List (Str × JsonVal)} (h : l ≠ []) :
    queryStringOf l ≠ [] := by
  unfold queryStringOf
  cases hE : entriesJS l with
  | nil => exact absurd hE (entriesJS_ne_nil h)
  | cons e es => exact joinAmp_cons_ne_nil e es

/-- C2: for every successful parse whose query field is the object props,
fullUrl equals the validated url value unchanged when props is empty (and
hence also when the QUERY section is absent, since query then stays the
empty object), and otherwise equals the url followed by the
ampersand-joined key=encodeURIComponent(value) query string, appended
after a question mark when the url contains none and after an ampersand
otherwise. -/
theorem c2_query_materialization (s m : Str) (r : Request) (props : JsonProps)
    (h : parseReqline s = .ok (m, r)) (hq : r.query = .obj props) :
    ∃ hp up rest u,
      validateAndSplit s = .ok (hp, up, rest) ∧
      parseUrlPart up = .ok u ∧
      ((propsToList props = [] → r.fullUrl = u) ∧
       (propsToList props ≠ [] →
         r.fullUrl = u ++
           (if u.contains '?' = true then
              '&' :: queryStringOf (propsToList props)
            else '?' :: queryStringOf (propsToList props)))) := by
  obtain ⟨hp, up, rest, u, so, hvs, hhm, huu, hpr⟩ := parseReqline_ok_elim h
  obtain ⟨-, -, -, -, hQ, hF⟩ :=
    processRest_ok_spec rest [] ⟨.obj .nil, .obj .nil, .obj .nil, u⟩ so r hpr
  refine ⟨hp, up, rest, u, hvs, huu, ?_⟩
  cases hfd : findDecoded (("QUERY".data)) rest with
  | none =>
    rw [hfd] at hF hQ
    rw [hq] at hQ
    simp at hQ
    constructor
    · intro _
      exact hF
    · intro hne
      rw [hQ] at hne
      exact absurd rfl hne
  | some j =>
    rw [hfd] at hF hQ
    rw [hq] at hQ
    simp at hQ
    subst hQ
    have hF' : r.fullUrl =
        (if queryStringOf (propsToList props) = [] then u
         else u ++
           (if u.contains '?' = true then '&' :: queryStringOf (propsToList props)
            else '?' :: queryStringOf (propsToList props))) := hF
    constructor
    · intro hnil
      rw [hF', if_pos (by rw [hnil]; rfl)]
    · intro hne
      rw [hF', if_neg (queryStringOf_ne_nil hne)]

/-- C2 witness: the theorem applied at the spec example, whose fullUrl is
https://api.test/x?a=b%20c (space encoded as %20). -/
theorem c2_query_materialization_witness :
    parseReqline (("[HTTP GET | URL https://api.test/x | QUERY \x7b\"a\":\"b c\"\x7d]").data) =
      .ok (("GET".data),
        ⟨.obj (.cons ("a".data) (.str ("b c".data)) .nil), .obj .nil, .obj .nil,
         ("https://api.test/x?a=b%20c".data)⟩) ∧
    (∃ hp up rest u,
      validateAndSplit
          (("[HTTP GET | URL https://api.test/x | QUERY \x7b\"a\":\"b c\"\x7d]").data) =
        .ok (hp, up, rest) ∧
      parseUrlPart up = .ok u ∧
      ((propsToList (.cons ("a".data) (.str ("b c".data)) .nil) = [] →
         (⟨.obj (.cons ("a".data) (.str ("b c".data)) .nil), .obj .nil, .obj .nil,
          ("https://api.test/x?a=b%20c".data)⟩ : Request).fullUrl = u) ∧
       (propsToList (.cons ("a".data) (.str ("b c".data)) .nil) ≠ [] →
         (⟨.obj (.cons ("a".data) (.str ("b c".data)) .nil), .obj .nil, .obj .nil,
          ("https://api.test/x?a=b%20c".data)⟩ : Request).fullUrl = u ++
           (if u.contains '?' = true then
              '&' :: queryStringOf
                (propsToList (.cons ("a".data) (.str ("b c".data)) .nil))
            else '?' :: queryStringOf
              (propsToList (.cons ("a".data) (.str ("b c".data)) .nil)))))) :=
  ⟨rfl,
   c2_query_materialization
     (("[HTTP GET | URL https://api.test/x | QUERY \x7b\"a\":\"b c\"\x7d]").data)
     (("GET".data))
     ⟨.obj (.cons ("a".data) (.str ("b c".data)) .nil), .obj .nil, .obj .nil,
      ("https://api.test/x?a=b%20c".data)⟩
     (.cons ("a".data) (.str ("b c".data)) .nil) rfl rfl⟩

lemma findDecoded_perm (k : Str) : ∀ {r₁ r₂ : List Str}, r₁.Perm r₂ →
    (r₁.map kwOf).Nodup → findDecoded k r₁ = findDecoded k r₂ := by
  intro r₁ r₂ hperm
  induction hperm with
  | nil => intro _; rfl
  | cons x hp2 ih =>
    intro hnd
    rw [List.map_cons, List.nodup_cons] at hnd
    cases hd : decodePart x with
    | error e =>
      simp only [findDecoded, hd]
      exact ih hnd.2
    | ok kj =>
      cases kj with
      | mk kx j =>
        by_cases hkx : kx = k
        · subst hkx
          simp [findDecoded, hd]
        · simp only [findDecoded, hd, if_neg hkx]
          exact ih hnd.2
  | swap x y l =>
    intro hnd
    have hxy : kwOf y ≠ kwOf x := by
      rw [List.map_cons, List.map_cons, List.nodup_cons] at hnd
      exact fun he => hnd.1 (he ▸ List.mem_cons_self _ _)
    cases hdy : decodePart y with
    | error ey =>
      cases hdx : decodePart x with
      | error ex => simp [findDecoded, hdy, hdx]
      | ok kjx =>
        cases kjx with
        | mk kx jx => simp [findDecoded, hdy, hdx]
    | ok kjy =>
      cases kjy with
      | mk ky jy =>
        cases hdx : decodePart x with
        | error ex => simp [findDecoded, hdy, hdx]
        | ok kjx =>
          cases kjx with
          | mk kx jx =>
            have hk : ky ≠ kx := by
              rw [← kwOf_eq hdy, ← kwOf_eq hdx]
              exact hxy
            by_cases hky : ky = k
            · subst hky
              have hxk : ¬ kx = ky := fun he => hk he.symm
              simp [findDecoded, hdy, hdx, hxk]
            · by_cases hkx : kx = k
              · subst hkx
                simp [findDecoded, hdy, hdx, hky]
              · simp [findDecoded, hdy, hdx, hky, hkx]
  | trans h12 h23 ih12 ih23 =>
    intro hnd
    exact (ih12 hnd).trans (ih23 ((h12.map kwOf).nodup hnd))

lemma decodePart_ok_inv {p k : Str} {j : JsonVal} (h : decodePart p = .ok (k, j)) :
    ∃ v, decodeKw p = .ok (k, v) ∧ decodeVal k v = .ok j := by
  unfold decodePart at h
  split at h
  · exact absurd h (by simp)
  · rename_i k' v heq
    split at h
    · exact absurd h (by simp)
    · rename_i j' heq2
      simp at h
      obtain ⟨hk, hj⟩ := h
      subst hk
      subst hj
      exact ⟨v, heq, heq2⟩

lemma processRest_ok_of : ∀ (rest : List Str) (seen : List Str) (req : Request),
    (∀ p ∈ rest, ∃ k j, decodePart p = .ok (k, j)) →
    (∀ p ∈ rest, kwOf p ∉ seen) →
    (rest.map kwOf).Nodup →
    ∃ so ro, processRest seen req rest = .ok (so, ro) := by
  intro rest
  induction rest with
  | nil =>
    intro seen req _ _ _
    exact ⟨seen, req, rfl⟩
  | cons p ps ih =>
    intro seen req hdec hseen hnd
    obtain ⟨k, j, hdp⟩ := hdec p (List.mem_cons_self p ps)
    obtain ⟨v, hkw, hval⟩ := decodePart_ok_inv hdp
    have hkIn : k ∉ seen := by
      have hs := hseen p (List.mem_cons_self p ps)
      rwa [kwOf_eq hdp] at hs
    have hpp : processPart seen req p = .ok (k :: seen, applyUpd req k j) := by
      rw [processPart_decoded seen req p k v hkw, if_neg hkIn, hval]
    rw [List.map_cons, List.nodup_cons] at hnd
    obtain ⟨so, ro, hr⟩ := ih (k :: seen) (applyUpd req k j)
      (fun q hq => hdec q (List.mem_cons_of_mem p hq))
      (fun q hq => by
        intro hin
        rcases List.mem_cons.mp hin with he | hin2
        · apply hnd.1
          rw [kwOf_eq hdp, ← he]
          exact List.mem_map_of_mem kwOf hq
        · exact hseen q (List.mem_cons_of_mem p hq) hin2)
      hnd.2
    refine ⟨so, ro, ?_⟩
    simp only [processRest]
    rw [hpp]
    exact hr

lemma parseAfterSplit_ok_guards {hp up : Str} {rest : List Str}
    {out : Str × Request} (h : parseAfterSplit hp up rest = .ok out) :
    ¬(hp = [] ∨ ¬ List.isPrefixOf ("HTTP ".data) (trim hp) = true) ∧
    ¬(up = [] ∨ ¬ List.isPrefixOf ("URL ".data) (trim up) = true) := by
  unfold parseAfterSplit at h
  split at h
  · exact absurd h (by simp [err400])
  · split at h
    · exact absurd h (by simp [err400])
    · rename_i hg1 hg2
      exact ⟨hg1, hg2⟩

/-- C4: two inputs whose validation splits agree on the HTTP and URL
sections and whose trailing-section lists are permutations of one another
behave identically: whenever the first parses successfully, the second
parses successfully too and produces the very same (method, request)
result — the trailing HEADERS/QUERY/BODY sections are order-independent. -/
theorem c4_trailing_order_independent (s₁ s₂ hpart upart : Str)
    (r₁ r₂ : List Str) (out₁ : Str × Request)
    (hv₁ : validateAndSplit s₁ = .ok (hpart, upart, r₁))
    (hv₂ : validateAndSplit s₂ = .ok (hpart, upart, r₂))
    (hperm : r₁.Perm r₂)
    (h₁ : parseReqline s₁ = .ok out₁) :
    parseReqline s₂ = .ok out₁ := by
  obtain ⟨m₁, q₁⟩ := out₁
  have hps₁ : parseAfterSplit hpart upart r₁ = .ok (m₁, q₁) := by
    unfold parseReqline at h₁
    rw [hv₁] at h₁
    exact h₁
  obtain ⟨hpa, upa, rest₁, u₁, so₁, hvs₁, hhm₁, huu₁, hpr₁⟩ := parseReqline_ok_elim h₁
  rw [hv₁] at hvs₁
  simp at hvs₁
  obtain ⟨rfl, rfl, rfl⟩ := hvs₁
  obtain ⟨hg1, hg2⟩ := parseAfterSplit_ok_guards hps₁
  obtain ⟨-, ⟨hnd₁, hdec₁⟩, hH₁, hB₁, hQ₁, hF₁⟩ :=
    processRest_ok_spec r₁ [] ⟨.obj .nil, .obj .nil, .obj .nil, u₁⟩ so₁ q₁ hpr₁
  have hdec₂ : ∀ p ∈ r₂, ∃ k j, decodePart p = .ok (k, j) :=
    fun p hp2 => hdec₁ p (hperm.mem_iff.mpr hp2)
  have hnd₂ : (r₂.map kwOf).Nodup := (hperm.map kwOf).nodup hnd₁
  obtain ⟨so₂, q₂, hpr₂⟩ :=
    processRest_ok_of r₂ [] ⟨.obj .nil, .obj .nil, .obj .nil, u₁⟩ hdec₂ (by simp) hnd₂
  obtain ⟨-, -, hH₂, hB₂, hQ₂, hF₂⟩ :=
    processRest_ok_spec r₂ [] ⟨.obj .nil, .obj .nil, .obj .nil, u₁⟩ so₂ q₂ hpr₂
  have hfd : ∀ kk, findDecoded kk r₁ = findDecoded kk r₂ :=
    fun kk => findDecoded_perm kk hperm hnd₁
  have e1 : q₂.headers = q₁.headers := by rw [hH₂, hH₁, hfd]
  have e2 : q₂.body = q₁.body := by rw [hB₂, hB₁, hfd]
  have e3 : q₂.query = q₁.query := by rw [hQ₂, hQ₁, hfd]
  have e4 : q₂.fullUrl = q₁.fullUrl := by rw [hF₂, hF₁, hfd]
  have hq21 : q₂ = q₁ := by
    have h5 : q₂ = ⟨q₂.query, q₂.body, q₂.headers, q₂.fullUrl⟩ := rfl
    rw [h5, e1, e2, e3, e4]
  unfold parseReqline
  rw [hv₂]
  show parseAfterSplit hpart upart r₂ = .ok (m₁, q₁)
  unfold parseAfterSplit
  rw [if_neg hg1, if_neg hg2, hhm₁]
  show (match parseUrlPart upart with
        | .error e => Except.error e
        | .ok url =>
          match processRest [] ⟨.obj .nil, .obj .nil, .obj .nil, url⟩ r₂ with
          | .error e => Except.error e
          | .ok (_, req) => Except.ok (m₁, req)) = Except.ok (m₁, q₁)
  rw [huu₁]
  show (match processRest [] ⟨.obj .nil, .obj .nil, .obj .nil, u₁⟩ r₂ with
        | .error e => Except.error e
        | .ok (_, req) => Except.ok (m₁, req)) = Except.ok (m₁, q₁)
  rw [hpr₂]
  show Except.ok (m₁, q₂) = Except.ok (m₁, q₁)
  rw [hq21]

/-- C4 witness: the spec's example pair — QUERY then HEADERS versus
HEADERS then QUERY.  The first conjunct computes the first parse; the
second conjunct, that the swapped input parses successfully to the very
same (method, request) value, is obtained by applying the theorem. -/
theorem c4_trailing_order_independent_witness :
    parseReqline
        (("[HTTP GET | URL https://a.com/x | QUERY \x7b\"a\":\"1\"\x7d | HEADERS \x7b\"h\":\"1\"\x7d]").data) =
      .ok ((("GET".data),
        ⟨.obj (.cons ("a".data) (.str ("1".data)) .nil), .obj .nil,
         .obj (.cons ("h".data) (.str ("1".data)) .nil),
         ("https://a.com/x?a=1".data)⟩)) ∧
    parseReqline
        (("[HTTP GET | URL https://a.com/x | HEADERS \x7b\"h\":\"1\"\x7d | QUERY \x7b\"a\":\"1\"\x7d]").data) =
      .ok ((("GET".data),
        ⟨.obj (.cons ("a".data) (.str ("1".data)) .nil), .obj .nil,
         .obj (.cons ("h".data) (.str ("1".data)) .nil),
         ("https://a.com/x?a=1".data)⟩)) :=
  ⟨rfl,
   c4_trailing_order_independent
     (("[HTTP GET | URL https://a.com/x | QUERY \x7b\"a\":\"1\"\x7d | HEADERS \x7b\"h\":\"1\"\x7d]").data)
     (("[HTTP GET | URL https://a.com/x | HEADERS \x7b\"h\":\"1\"\x7d | QUERY \x7b\"a\":\"1\"\x7d]").data)
     (("HTTP GET".data)) (("URL https://a.com/x".data))
     [(("QUERY \x7b\"a\":\"1\"\x7d").data), (("HEADERS \x7b\"h\":\"1\"\x7d").data)]
     [(("HEADERS \x7b\"h\":\"1\"\x7d").data), (("QUERY \x7b\"a\":\"1\"\x7d").data)]
     ((("GET".data),
       ⟨.obj (.cons ("a".data) (.str ("1".data)) .nil), .obj .nil,
        .obj (.cons ("h".data) (.str ("1".data)) .nil),
        ("https://a.com/x?a=1".data)⟩))
     rfl rfl
     (List.Perm.swap (("HEADERS \x7b\"h\":\"1\"\x7d").data)
       (("QUERY \x7b\"a\":\"1\"\x7d").data) [])
     rfl⟩

lemma dropWhile_head_not {p : Char → Bool} : ∀ (l : Str) {c : Char},
    (l.dropWhile p).head? = some c → p c = false := by
  intro l
  induction l with
  | nil => intro c h; simp at h
  | cons a as ih =>
    intro c h
    rw [List.dropWhile_cons] at h
    by_cases hpa : p a = true
    · rw [if_pos hpa] at h
      exact ih h
    · rw [if_neg hpa] at h
      simp at h
      subst h
      simpa using hpa

lemma trimRight_last {s : Str} {c : Char} (h : (trimRight s).getLast? = some c) :
    jsWS c = false := by
  unfold trimRight at h
  rw [List.getLast?_reverse] at h
  exact dropWhile_head_not _ h

lemma getLast?_drop_ne_nil {l : Str} {n : Nat} (h : l.drop n ≠ []) :
    (l.drop n).getLast? = l.getLast? := by
  conv_rhs => rw [← List.take_append_drop n l]
  rw [List.getLast?_append_of_ne_nil _ h]

lemma char_toNat_lt (c : Char) : c.toNat < 1114112 := by
  rcases c.valid with h | ⟨-, h⟩
  · exact Nat.lt_trans h (by norm_num)
  · exact h

lemma utf8Bytes_lt (c : Char) (b : Nat) (hb : b ∈ utf8Bytes c) : b < 256 := by
  have hc := char_toNat_lt c
  simp only [utf8Bytes] at hb
  split at hb
  · simp at hb
    omega
  · split at hb
    · simp at hb
      rcases hb with rfl | rfl <;> omega
    · split at hb
      · simp at hb
        rcases hb with rfl | rfl | rfl <;> omega
      · simp at hb
        rcases hb with rfl | rfl | rfl | rfl <;> omega

lemma jsWS_false_of_toNat {c : Char}
    (h : c.toNat = 37 ∨ (48 ≤ c.toNat ∧ c.toNat ≤ 57) ∨ (65 ≤ c.toNat ∧ c.toNat ≤ 90) ∨
      (97 ≤ c.toNat ∧ c.toNat ≤ 122) ∨ c.toNat = 45 ∨ c.toNat = 95 ∨ c.toNat = 46 ∨
      c.toNat = 33 ∨ c.toNat = 126 ∨ c.toNat = 42 ∨ c.toNat = 40 ∨ c.toNat = 41 ∨
      c.toNat = 39) :
    jsWS c = false := by
  rw [Bool.eq_false_iff]
  intro hws
  unfold jsWS at hws
  simp only [Bool.or_eq_true, or_assoc, Bool.and_eq_true, beq_iff_eq,
    decide_eq_true_eq] at hws
  rcases hws with rfl | rfl | rfl | rfl | hw | hw | hw | hw | hw | hw | hw | hw | hw | hw | hw
  · exact absurd h (by decide)
  · exact absurd h (by decide)
  · exact absurd h (by decide)
  · exact absurd h (by decide)
  all_goals omega

lemma jsWS_hexDigit {n : Nat} (h : n ≤ 15) : jsWS (hexDigitUpper n) = false := by
  interval_cases n <;> decide

lemma jsWS_of_unreserved {c : Char} (h : isUnreservedURI c = true) : jsWS c = false := by
  apply jsWS_false_of_toNat
  unfold isUnreservedURI at h
  simp only [Bool.or_eq_true, or_assoc, Bool.and_eq_true, beq_iff_eq,
    decide_eq_true_eq] at h
  rcases h with ⟨h1, h2⟩ | ⟨h1, h2⟩ | ⟨h1, h2⟩ | rfl | rfl | rfl | rfl | rfl | rfl | rfl | rfl | h1
  · exact Or.inr (Or.inr (Or.inl ⟨h1, h2⟩))
  · exact Or.inr (Or.inr (Or.inr (Or.inl ⟨h1, h2⟩)))
  · exact Or.inr (Or.inl ⟨h1, h2⟩)
  · decide
  · decide
  · decide
  · decide
  · decide
  · decide
  · decide
  · decide
  · exact Or.inr (Or.inr (Or.inr (Or.inr (Or.inr (Or.inr (Or.inr (Or.inr (Or.inr
      (Or.inr (Or.inr (Or.inr h1)))))))))))

lemma encodeURIComponent_ws_free {v : Str} {c : Char}
    (hc : c ∈ encodeURIComponent v) : jsWS c = false := by
  unfold encodeURIComponent at hc
  rw [List.mem_flatten] at hc
  obtain ⟨l, hl, hcl⟩ := hc
  rw [List.mem_map] at hl
  obtain ⟨ch, hch, rfl⟩ := hl
  unfold encodeChar at hcl
  split at hcl
  · rename_i hunres
    rw [List.mem_singleton] at hcl
    subst hcl
    exact jsWS_of_unreserved hunres
  · rw [List.mem_flatten] at hcl
    obtain ⟨pb, hpb, hcpb⟩ := hcl
    rw [List.mem_map] at hpb
    obtain ⟨b, hb, rfl⟩ := hpb
    have hb256 : b < 256 := utf8Bytes_lt ch b hb
    simp only [percentByte, List.mem_cons, List.not_mem_nil, or_false] at hcpb
    rcases hcpb with rfl | rfl | rfl
    · decide
    · exact jsWS_hexDigit (by omega)
    · exact jsWS_hexDigit (by omega)

lemma joinAmp_pairs_last : ∀ (L : List (Str × JsonVal)) {c : Char},
    (joinAmp (L.map pairString)).getLast? = some c → jsWS c = false := by
  intro L
  induction L with
  | nil => intro c h; simp [joinAmp] at h
  | cons x xs ih =>
    intro c h
    cases xs with
    | nil =>
      have h' : (pairString x).getLast? = some c := h
      unfold pairString at h'
      rw [List.getLast?_append_of_ne_nil _ (List.cons_ne_nil _ _)] at h'
      have hmem := List.mem_of_mem_getLast? h'
      rcases List.mem_cons.mp hmem with rfl | hmem2
      · decide
      · exact encodeURIComponent_ws_free hmem2
    | cons y ys =>
      have h' : (pairString x ++
          '&' :: joinAmp ((y :: ys).map pairString)).getLast? = some c := h
      rw [List.getLast?_append_of_ne_nil _ (List.cons_ne_nil _ _)] at h'
      cases hJ : joinAmp ((y :: ys).map pairString) with
      | nil => exact absurd hJ (joinAmp_cons_ne_nil y ys)
      | cons e es =>
        rw [hJ, List.getLast?_cons_cons, ← hJ] at h'
        exact ih h'

lemma parseUrlPart_ok_facts {p u : Str} (h : parseUrlPart p = .ok u) :
    (List.isPrefixOf ("http://".data) u = true ∨
     List.isPrefixOf ("https://".data) u = true) ∧
    8 < u.length ∧
    (∀ c, u.getLast? = some c → jsWS c = false) := by
  unfold parseUrlPart at h
  split at h
  · exact absurd h (by simp [err400])
  · split at h
    · exact absurd h (by simp [err400])
    · split at h
      · exact absurd h (by simp [err400])
      · rename_i i hidx
        split at h
        · exact absurd h (by simp [err400])
        · split at h
          · exact absurd h (by simp [err400])
          · rename_i hne
            split at h
            · exact absurd h (by simp [err400])
            · split at h
              · exact absurd h (by simp [err400])
              · rename_i hfmt
                rw [not_not] at hfmt
                simp at h
                subst h
                obtain ⟨hAB, hlen⟩ := hfmt
                refine ⟨hAB, hlen, ?_⟩
                intro c hc
                rw [getLast?_drop_ne_nil hne] at hc
                exact trimRight_last hc

lemma parseReqline_ok_fullUrl {s m : Str} {r : Request}
    (h : parseReqline s = .ok (m, r)) :
    (List.isPrefixOf ("http://".data) r.fullUrl = true ∨
     List.isPrefixOf ("https://".data) r.fullUrl = true) ∧
    8 < r.fullUrl.length ∧
    (∀ c, r.fullUrl.getLast? = some c → jsWS c = false) := by
  obtain ⟨hp, up, rest, u, so, hvs, hhm, huu, hpr⟩ := parseReqline_ok_elim h
  obtain ⟨-, -, -, -, -, hF⟩ :=
    processRest_ok_spec rest [] ⟨.obj .nil, .obj .nil, .obj .nil, u⟩ so r hpr
  obtain ⟨hpre, hlen, hlast⟩ := parseUrlPart_ok_facts huu
  cases hfd : findDecoded (("QUERY".data)) rest with
  | none =>
    rw [hfd] at hF
    have hFu : r.fullUrl = u := hF
    rw [hFu]
    exact ⟨hpre, hlen, hlast⟩
  | some j =>
    rw [hfd] at hF
    cases j with
    | obj props =>
      have hF' : r.fullUrl =
          (if queryStringOf (propsToList props) = [] then u
           else u ++
             (if u.contains '?' = true then '&' :: queryStringOf (propsToList props)
              else '?' :: queryStringOf (propsToList props))) := hF
      by_cases hqs : queryStringOf (propsToList props) = []
      · rw [hF', if_pos hqs]
        exact ⟨hpre, hlen, hlast⟩
      · rw [hF', if_neg hqs]
        have hfacts : ∀ (sep : Char), jsWS sep = false →
            (List.isPrefixOf ("http://".data)
               (u ++ sep :: queryStringOf (propsToList props)) = true ∨
             List.isPrefixOf ("https://".data)
               (u ++ sep :: queryStringOf (propsToList props)) = true) ∧
            8 < (u ++ sep :: queryStringOf (propsToList props)).length ∧
            (∀ c, (u ++ sep :: queryStringOf (propsToList props)).getLast? = some c →
              jsWS c = false) := by
          intro sep hsep
          refine ⟨?_, ?_, ?_⟩
          · rcases hpre with hp1 | hp1
            · left
              obtain ⟨t, rfl⟩ := prefixOf_exists hp1
              rw [List.append_assoc]
              exact prefixOf_append _ _
            · right
              obtain ⟨t, rfl⟩ := prefixOf_exists hp1
              rw [List.append_assoc]
              exact prefixOf_append _ _
          · rw [List.length_append]
            omega
          · intro c hc
            rw [List.getLast?_append_of_ne_nil _ (List.cons_ne_nil _ _)] at hc
            cases hQ : queryStringOf (propsToList props) with
            | nil => exact absurd hQ hqs
            | cons e es =>
              rw [hQ, List.getLast?_cons_cons, ← hQ] at hc
              exact joinAmp_pairs_last (entriesJS (propsToList props)) hc
        cases hcq : u.contains '?' with
        | false =>
          rw [if_neg Bool.false_ne_true]
          exact hfacts '?' (by decide)
        | true =>
          rw [if_pos rfl]
          exact hfacts '&' (by decide)
    | str sv =>
      have hFu : r.fullUrl = u := hF
      rw [hFu]
      exact ⟨hpre, hlen, hlast⟩
    | num nv =>
      have hFu : r.fullUrl = u := hF
      rw [hFu]
      exact ⟨hpre, hlen, hlast⟩
    | bool bv =>
      have hFu : r.fullUrl = u := hF
      rw [hFu]
      exact ⟨hpre, hlen, hlast⟩
    | null =>
      have hFu : r.fullUrl = u := hF
      rw [hFu]
      exact ⟨hpre, hlen, hlast⟩
    | arr av =>
      have hFu : r.fullUrl = u := hF
      rw [hFu]
      exact ⟨hpre, hlen, hlast⟩

/-- C7 (amended): for every successful parse producing a fullUrl that
contains no space and no pipe character, re-parsing [HTTP GET | URL
fullUrl] without a QUERY section succeeds and returns the same fullUrl
unchanged, with empty query, body and headers — no query string is
re-appended. -/
theorem c7_reparse_fullurl (s m : Str) (r : Request)
    (h : parseReqline s = .ok (m, r))
    (hsp : ' ' ∉ r.fullUrl) (hpi : '|' ∉ r.fullUrl) :
    parseReqline (("[HTTP GET | URL ".data) ++ r.fullUrl ++ ("]".data)) =
      .ok (("GET".data), ⟨.obj .nil, .obj .nil, .obj .nil, r.fullUrl⟩) := by
  obtain ⟨hpre, hlen, hlast⟩ := parseReqline_ok_fullUrl h
  exact simple_reqline_ok (("GET".data)) r.fullUrl (Or.inl rfl) hpre hlen hsp hpi hlast

/-- C7 witness: a parse whose QUERY section yields fullUrl
https://api.test/q?a=b%20c, whose re-parse returns it unchanged. -/
theorem c7_reparse_fullurl_witness :
    parseReqline (("[HTTP GET | URL https://api.test/q | QUERY \x7b\"a\":\"b c\"\x7d]").data) =
      .ok (("GET".data),
        ⟨.obj (.cons ("a".data) (.str ("b c".data)) .nil), .obj .nil, .obj .nil,
         ("https://api.test/q?a=b%20c".data)⟩) ∧
    ' ' ∉ ("https://api.test/q?a=b%20c".data) ∧
    '|' ∉ ("https://api.test/q?a=b%20c".data) ∧
    parseReqline (("[HTTP GET | URL ".data) ++
        ("https://api.test/q?a=b%20c".data) ++ ("]".data)) =
      .ok (("GET".data),
        ⟨.obj .nil, .obj .nil, .obj .nil, ("https://api.test/q?a=b%20c".data)⟩) :=
  ⟨rfl, by decide, by decide,
   c7_reparse_fullurl
     (("[HTTP GET | URL https://api.test/q | QUERY \x7b\"a\":\"b c\"\x7d]").data)
     (("GET".data))
     ⟨.obj (.cons ("a".data) (.str ("b c".data)) .nil), .obj .nil, .obj .nil,
      ("https://api.test/q?a=b%20c".data)⟩
     rfl (by decide) (by decide)⟩

end Reqline
